import Mathlib

/-!
Verification development for the "Enriquecedor de Catálogo" pipeline.

Python strings are modelled as `List Char` (`Str`); Python dicts as
association lists; JSON values as the inductive `J`.  Each embedded
definition mirrors one function of the repository, keeping its name where
Lean allows it.  Sources:
  * `version final/src/enrich_products.py`          (namespace `VF`)
  * `Iteracion/002-...py`                           (namespace `It002`)
  * `Iteracion/007-.../001-enriquecedor_catalogo.py`(namespace `It007`)
  * `Iteracion/008-.../001-enriquecedor_catalogo.py`(namespace `It008`)
-/

abbrev Str := List Char

/-- Convert a Lean string literal to the `List Char` model. -/
def strL (s : String) : Str := s.data

/-- Python `str.strip()` (leading and trailing whitespace removed). -/
def pyStrip (s : Str) : Str :=
  ((s.dropWhile Char.isWhitespace).reverse.dropWhile Char.isWhitespace).reverse

/-- Python `str.lower()` (ASCII scope of the model). -/
def pyLower (s : Str) : Str := s.map Char.toLower

/-- Python `str.rstrip()`. -/
def pyRstrip (s : Str) : Str := (s.reverse.dropWhile Char.isWhitespace).reverse

/-- Boolean prefix test on character lists. -/
def isPrefixB : Str → Str → Bool
  | [], _ => true
  | _ :: _, [] => false
  | a :: as, b :: bs => a = b && isPrefixB as bs

/-- Python `sub in s` substring test. -/
def strIn (sub : Str) : Str → Bool
  | [] => isPrefixB sub []
  | c :: rest => isPrefixB sub (c :: rest) || strIn sub rest

/-- Python `s.split()` — split on whitespace runs, dropping empties. -/
def pySplit (s : Str) : List Str :=
  (s.splitOnP Char.isWhitespace).filter (· ≠ [])

/-- Models `" ".join(ws)`-style join with a separator character. -/
def joinSep (c : Char) : List Str → Str
  | [] => []
  | [w] => w
  | w :: ws => w ++ c :: joinSep c ws

/-- Collapse runs of a character into a single occurrence
(`re.sub(r"-{2,}", "-", s)` and friends). -/
def collapseRuns (c : Char) : Str → Str
  | [] => []
  | [a] => [a]
  | a :: b :: rest =>
    if a = c ∧ b = c then collapseRuns c (b :: rest)
    else a :: collapseRuns c (b :: rest)

/-- Keep first occurrences only (`dict.fromkeys` de-duplication),
dropping empty entries, comparing with a projection `key`. -/
def dedupFirstBy (key : Str → Str) : List Str → List Str → List Str
  | _, [] => []
  | seen, t :: ts =>
    let k := key t
    if k = [] ∨ seen.contains k then dedupFirstBy key seen ts
    else t :: dedupFirstBy key (k :: seen) ts

/-- Accent stripping for the Latin characters that occur in this
repository's data; models `unicodedata`-based `strip_accents` /
`_strip_accents` (NFD/NFKD decomposition followed by removal of
combining marks) restricted to the Spanish range. -/
def stripAccentChar (c : Char) : Char :=
  if c = 'á' then 'a' else if c = 'é' then 'e' else if c = 'í' then 'i'
  else if c = 'ó' then 'o' else if c = 'ú' then 'u' else if c = 'ü' then 'u'
  else if c = 'ñ' then 'n'
  else if c = 'Á' then 'A' else if c = 'É' then 'E' else if c = 'Í' then 'I'
  else if c = 'Ó' then 'O' else if c = 'Ú' then 'U' else if c = 'Ü' then 'U'
  else if c = 'Ñ' then 'N' else c

/-! ## JSON values (`json.loads` results) -/

/-- A parsed JSON value.  `jnum` carries the textual representation of
the number (what Python's `str()` would show). -/
inductive J where
  | jnull : J
  | jbool : Bool → J
  | jnum : Str → J
  | jstr : Str → J
  | jarr : List J → J
  | jobj : List (Str × J) → J

/-- First-match lookup in an association list (Python dict `get`;
dicts have unique keys, so first match is the only match). -/
def dlookup (d : List (Str × J)) (k : Str) : Option J :=
  (d.find? (fun e => e.1 = k)).map (fun e => e.2)

/-- Python `d.get(k, dflt)`. -/
def dgetD (d : List (Str × J)) (k : Str) (dflt : J) : J :=
  (dlookup d k).getD dflt

/-- Python truthiness of a JSON value.  Numbers are falsy when their
textual representation is a zero literal. -/
def pyTruthy : J → Bool
  | .jnull => false
  | .jbool b => b
  | .jnum r => ¬(r = strL ("0") ∨ r = strL ("0.0") ∨ r = strL ("-0.0"))
  | .jstr s => ¬s.isEmpty
  | .jarr xs => ¬xs.isEmpty
  | .jobj fs => ¬fs.isEmpty

/-- Python `str(x)` on a JSON value.  Containers get a fixed non-empty
placeholder: their exact textual repr is never inspected by the code
under verification, only its non-emptiness after `strip`. -/
def pyStr : J → Str
  | .jnull => strL ("None")
  | .jbool b => if b then strL ("True") else strL ("False")
  | .jnum r => r
  | .jstr s => s
  | .jarr _ => strL ("<list>")
  | .jobj _ => strL ("<dict>")

/-- A flat input Record: ordered mapping field name → string, as parsed
from one `<producto>` XML element. -/
abbrev Product := List (Str × Str)

/-- Models `product.get(k, "")` for flat string records. -/
def pget (p : Product) (k : Str) : Str :=
  ((p.find? (fun e => e.1 = k)).map (fun e => e.2)).getD []

/-- Models `product.get(k)` (`None` when missing) for flat string records. -/
def pget? (p : Product) (k : Str) : Option Str :=
  (p.find? (fun e => e.1 = k)).map (fun e => e.2)

/-! ## `version final/src/enrich_products.py` -/

namespace VF

/-- Models `_strip_accents` (enrich_products.py:31). -/
def strip_accents (s : Str) : Str := s.map stripAccentChar

/-- Characters kept by `re.sub(r"[^a-z0-9\s_-]+", "", s)`. -/
def kebabKeep (c : Char) : Bool :=
  (('a' ≤ c ∧ c ≤ 'z') ∨ ('0' ≤ c ∧ c ≤ '9') ∨ c.isWhitespace ∨ c = '_' ∨ c = '-')

/-- Models `to_kebab_case` (enrich_products.py:37): strip accents, lower,
drop foreign symbols, underscores to spaces, whitespace runs to `-`,
collapse `-` runs, fallback `"producto"`. -/
def to_kebab_case (s : Str) : Str :=
  let s1 := strip_accents (pyLower (pyStrip s))
  let s2 := s1.filter kebabKeep
  let s3 := s2.map (fun c => if c = '_' then ' ' else c)
  let s4 := joinSep '-' (pySplit (pyStrip s3))
  let s5 := collapseRuns '-' s4
  if s5 = [] then strL ("producto") else s5

/-- Models `to_snake_case` (enrich_products.py:47). -/
def to_snake_case (s : Str) : Str :=
  let s1 := strip_accents (pyLower (pyStrip s))
  let s2 := s1.filter kebabKeep
  let s3 := s2.map (fun c => if c = '-' then ' ' else c)
  let s4 := joinSep '_' (pySplit (pyStrip s3))
  let s5 := collapseRuns '_' s4
  if s5 = [] then strL ("tag") else s5

/-- Models `clamp_len` (enrich_products.py:57). -/
def clamp_len (s : Str) (maxLen : Nat) : Str :=
  let t := pyStrip s
  if t.length ≤ maxLen then t else pyRstrip (t.take maxLen)

/-- Models `clamp_words` (enrich_products.py:65). -/
def clamp_words (s : Str) (maxW : Nat) : Str :=
  joinSep ' ' ((pySplit (pyStrip s)).take maxW)

/-- Models `extract_json_block` (enrich_products.py:113): returns the trimmed
text whole when it starts with `{` and ends with `}`; otherwise scans
from the first `{` with an explicit brace-depth counter. -/
def scanDepth : List Char → List Char → Int → Str
  | [], _, _ => []
  | c :: rest, acc, depth =>
    let depth' : Int :=
      if c = '{' then depth + 1 else if c = '}' then depth - 1 else depth
    if c = '}' ∧ depth' = 0 then acc ++ [c]
    else scanDepth rest (acc ++ [c]) depth'

def extract_json_block (text : Str) : Str :=
  let t := pyStrip text
  if t = [] then []
  else if t.head? = some '{' ∧ t.getLast? = some '}' then t
  else
    let rest := t.dropWhile (· ≠ '{')
    if rest = [] then [] else scanDepth rest [] 0

/-- Depth contribution of one character in the extractor's counter. -/
def braceDelta (c : Char) : Int :=
  if c = '{' then 1 else if c = '}' then -1 else 0

/-- Net brace depth of a character sequence (number of `{` minus
number of `}`), the quantity the extractor's explicit counter tracks. -/
def netDepth : Str → Int
  | [] => 0
  | c :: s => braceDelta c + netDepth s

/-- A sequence is a single balanced brace block: starts with `{`, net
depth zero overall, and strictly positive at every proper non-empty
prefix (so the closing `}` of the first object is its last character). -/
def balancedBlock (body : Str) : Prop :=
  body.head? = some '{' ∧ netDepth body = 0 ∧
    ∀ k, 0 < k → k < body.length → 0 < netDepth (body.take k)

instance (body : Str) : Decidable (balancedBlock body) :=
  decidable_of_iff
    (body.head? = some '{' ∧ netDepth body = 0 ∧
      ∀ k < body.length, 0 < k → 0 < netDepth (body.take k))
    (by
      unfold balancedBlock
      constructor
      · rintro ⟨h1, h2, h3⟩; exact ⟨h1, h2, fun k hk0 hk => h3 k hk hk0⟩
      · rintro ⟨h1, h2, h3⟩; exact ⟨h1, h2, fun k hk hk0 => h3 k hk0 hk⟩)

/-- The slice the spec prescribes for free-form output: locate the
first `{` and cut at its brace-depth-matched `}` (written from the
spec's words, for comparison with `extract_json_block`). -/
def spec_depth_slice (text : Str) : Str :=
  scanDepth ((pyStrip text).dropWhile (· ≠ '{')) [] 0

/-- The final `EnrichmentResult` shape produced by `normalize_output`. -/
structure EnrichOut where
  slug : Str
  short_desc : Str
  bullets : List Str
  tags : List Str
  seo_title : Str
  seo_description : Str
  deriving DecidableEq

/-- Models `(raw.get(k) or "").strip()`: `none` models the `AttributeError`
Python raises when the value is truthy but not a string. -/
def strField (raw : List (Str × J)) (k : Str) : Option Str :=
  match dlookup raw k with
  | none => some []
  | some v =>
    if pyTruthy v then
      match v with
      | .jstr s => some (pyStrip s)
      | _ => none
    else some []

/-- Models `raw.get(k)` with the `isinstance(…, list)` guard: non-lists
(and missing keys) become `[]`. -/
def listField (raw : List (Str × J)) (k : Str) : List J :=
  match dlookup raw k with
  | some (.jarr xs) => xs
  | _ => []

/-- Models `normalize_output` (enrich_products.py:200): guarantees the exact
output keys, exactly 3 bullets, snake_case tags capped at 10, a
kebab-case slug with fallback, and the SEO length caps. -/
def normalize_output (raw : List (Str × J)) (product : Product) :
    Option EnrichOut := do
  let nombre := pyStrip (pget product (strL ("nombre")))
  let marca := pyStrip (pget product (strL ("marca")))
  let slugRaw ← strField raw (strL ("slug"))
  let slug :=
    if slugRaw = [] then
      let base := if marca ≠ [] then pyStrip (nombre ++ ' ' :: marca) else nombre
      to_kebab_case base
    else to_kebab_case slugRaw
  let short_desc ← strField raw (strL ("short_desc"))
  let bullets0 :=
    ((listField raw (strL ("bullets"))).map (fun x => pyStrip (pyStr x))).filter
      (· ≠ [])
  let bullets := ((bullets0 ++ [[], [], []]).take 3).map (fun b => clamp_words b 6)
  let tags0 :=
    ((listField raw (strL ("tags"))).filter
      (fun t => pyStrip (pyStr t) ≠ [])).map (fun t => to_snake_case (pyStr t))
  let safe_tags :=
    (if pget product (strL ("categoria")) ≠ [] then
      [to_snake_case (pget product (strL ("categoria")))] else []) ++
    (if pget product (strL ("marca")) ≠ [] then
      [to_snake_case (pget product (strL ("marca")))] else []) ++
    (if pget product (strL ("material")) ≠ [] then
      [to_snake_case (pget product (strL ("material")))] else [])
  let all_tags := (dedupFirstBy id [] (tags0 ++ safe_tags)).take 10
  let seo_title ← strField raw (strL ("seo_title"))
  let seo_description ← strField raw (strL ("seo_description"))
  pure {
    slug := slug
    short_desc := short_desc
    bullets := bullets
    tags := all_tags
    seo_title := clamp_len seo_title 60
    seo_description := clamp_len seo_description 160
  }

end VF

/-! ## Canonical fingerprint serialization (`sha1_key` of iterations 002/007/008)

`sha1_key(obj) = sha1(json.dumps(obj, sort_keys=True, …))`: the digest is a
function of the canonical serialization, which sorts keys.  The hash itself
is kept as a parameter (a fixed function of the serialized bytes). -/

/-- Lexicographic `≤` on character lists (Python string ordering). -/
def leStr : Str → Str → Bool
  | [], _ => true
  | _ :: _, [] => false
  | a :: as, b :: bs => if a = b then leStr as bs else decide (a < b)

/-- Insert into a key-sorted list (insertion sort step). -/
def insertByKey {α : Type} (key : α → Str) (e : α) : List α → List α
  | [] => [e]
  | f :: fs => if leStr (key e) (key f) then e :: f :: fs else f :: insertByKey key e fs

/-- Stable key sort, modelling `sort_keys=True`. -/
def sortByKey {α : Type} (key : α → Str) : List α → List α
  | [] => []
  | e :: es => insertByKey key e (sortByKey key es)

/-- JSON string quoting (modulo escaping, which the plain field names
and values of this pipeline never need). -/
def jsonQuote (s : Str) : Str := '"' :: s ++ ['"']

/-- Canonical serialization of a flat string object with sorted keys and
compact separators. -/
def dumpsSorted (obj : List (Str × Str)) : Str :=
  '{' :: joinSep ','
    ((sortByKey Prod.fst obj).map (fun e => jsonQuote e.1 ++ ':' :: jsonQuote e.2))
    ++ ['}']

/-- Models `sha1_key` over a flat object: hash of the canonical serialization.
`hash` models `hashlib.sha1(...).hexdigest()`, a fixed function of the
serialized bytes. -/
def sha1_key (hash : Str → Str) (obj : List (Str × Str)) : Str :=
  hash (dumpsSorted obj)

/-- Python `a or b` on strings. -/
def orStr (a b : Str) : Str := if a = [] then b else a

/-- Keep first occurrences (`list(dict.fromkeys(...))`). -/
def dedupFromKeysGo : List Str → List Str → List Str
  | _, [] => []
  | seen, t :: ts =>
    if seen.contains t then dedupFromKeysGo seen ts
    else t :: dedupFromKeysGo (t :: seen) ts

def dedupFromKeys (l : List Str) : List Str := dedupFromKeysGo [] l

/-- Replace maximal runs of characters matched by `p` with a single
`r` (`re.sub(r"[\s_-]+", "-", s)` and friends).  The boolean flag
tracks whether the previous character was part of a run. -/
def replaceRuns (p : Char → Bool) (r : Char) : Str → Bool → Str
  | [], _ => []
  | c :: rest, inRun =>
    if p c then
      (if inRun then replaceRuns p r rest true else r :: replaceRuns p r rest true)
    else c :: replaceRuns p r rest false

/-- An Error Ledger entry:
`{"index": i, "stage": …, "nombre": …, "error": …, "ts": now_utc_iso()}`. -/
structure ErrEntry where
  index : Nat
  stage : Str
  nombre : Str
  error : Str
  ts : Str
  deriving DecidableEq

/-- One invocation of the Generation Client Adapter (an HTTP POST to
the Ollama `/api/generate` endpoint), tagged by purpose. -/
inductive Call where
  | classify : Call
  | enrich : Call
  deriving DecidableEq

/-! ## `Iteracion/002-leemos productos y gen de catalogo enriquecido.py` -/

namespace It002

/-- Models `safe_text` (002:73). -/
def safe_text (s : Str) : Str := pyStrip s

/-- Models `safe_text` applied to a JSON value, `(s or "").strip()`: `none`
models the `AttributeError` on a truthy non-string. -/
def safeTextJ : J → Option Str
  | v =>
    if pyTruthy v then
      match v with
      | .jstr s => some (pyStrip s)
      | _ => none
    else some []

/-- Lower-case accent replacement table of `slugify_ascii` (002:79). -/
def replAccentLower (c : Char) : Char :=
  if c = 'á' then 'a' else if c = 'é' then 'e' else if c = 'í' then 'i'
  else if c = 'ó' then 'o' else if c = 'ú' then 'u' else if c = 'ü' then 'u'
  else if c = 'ñ' then 'n' else c

/-- Models `slugify_ascii` (002:77). -/
def slugify_ascii (s : Str) (maxlen : Nat := 70) : Str :=
  let s1 := (pyLower (safe_text s)).map replAccentLower
  let s2 := s1.filter
    (fun c => ('a' ≤ c ∧ c ≤ 'z') ∨ ('0' ≤ c ∧ c ≤ '9') ∨ c.isWhitespace ∨ c = '-')
  let s3 := replaceRuns (fun c => c.isWhitespace ∨ c = '_' ∨ c = '-') '-' s2 false
  let s4 := (((s3.dropWhile (· = '-')).reverse.dropWhile (· = '-')).reverse)
  (if s4 = [] then strL ("producto") else s4).take maxlen

/-- The lower-cased blob of record fields the heuristic classifier
scans (002:181). -/
def blobOf (prod : Product) : Str :=
  pyLower (joinSep ' '
    [safe_text (pget prod (strL ("nombre"))),
     safe_text (pget prod (strL ("descripcion"))),
     safe_text (pget prod (strL ("categoria"))),
     safe_text (pget prod (strL ("material"))),
     safe_text (pget prod (strL ("tamano"))),
     safe_text (pget prod (strL ("talla"))),
     safe_text (pget prod (strL ("numero"))),
     safe_text (pget prod (strL ("color"))),
     safe_text (pget prod (strL ("marca")))])

/-- Regex word character (`\w`, ASCII scope of the model). -/
def isWordChar (c : Char) : Bool := c.isAlphanum || c = '_'

/-- A two-digit run at the head of `r` followed by a word boundary. -/
def digitAt2 : Str → Bool
  | d1 :: d2 :: rest =>
    d1.isDigit && d2.isDigit &&
      (match rest with
       | [] => true
       | x :: _ => !isWordChar x)
  | _ => false

/-- Match of `(eu\s*)?\d{2}\b` at the head of `r`. -/
def euMatchAt (r : Str) : Bool :=
  digitAt2 r ||
  (match r with
   | 'e' :: 'u' :: rest => digitAt2 (rest.dropWhile Char.isWhitespace)
   | _ => false)

/-- Scan for `re.search(r"\b(eu\s*)?\d{2}\b", text)`: some position with
a word boundary on its left where `euMatchAt` fires. -/
def searchEuNumGo (prev : Option Char) : Str → Bool
  | [] => false
  | c :: rest =>
    ((match prev with
      | none => true
      | some p => !isWordChar p) && euMatchAt (c :: rest))
    || searchEuNumGo (some c) rest

def searchEuNum (s : Str) : Bool := searchEuNumGo none s

def kw3d : List Str :=
  [strL ("pla"), strL ("petg"), strL ("resina"), strL ("abs"), strL ("filamento"),
   strL ("impreso en 3d"), strL ("impresion 3d"), strL ("stl")]

def footwear_kw : List Str :=
  [strL ("zapatill"), strL ("sneaker"), strL ("running"), strL ("suela"),
   strL ("cordones"), strL ("plantilla"), strL ("amortigu"), strL ("pisada"),
   strL ("trail")]

def apparel_kw : List Str :=
  [strL ("camiseta"), strL ("sudadera"), strL ("pantalon"), strL ("chaqueta"),
   strL ("talla s"), strL ("talla m"), strL ("talla l"), strL ("algodon"),
   strL ("poliester")]

def elec_kw : List Str :=
  [strL ("usb"), strL ("bluetooth"), strL ("cargador"), strL ("bateria"),
   strL ("volt"), strL ("watt"), strL ("hz"), strL ("compatible con"),
   strL ("smartphone"), strL ("auricular")]

def food_kw : List Str :=
  [strL ("ingrediente"), strL ("alergen"), strL ("sabor"), strL ("kcal"),
   strL ("gramos"), strL ("gluten"), strL ("vegano"), strL ("sin azucar")]

def service_kw : List Str :=
  [strL ("servicio"), strL ("suscripcion"), strL ("mantenimiento"),
   strL ("instalacion"), strL ("consultoria"), strL ("clases"), strL ("reserva")]

/-- Models `heuristic_domain` (002:176): ordered keyword checks, first match
wins, returning `(domain, confidence, signals)`. -/
def heuristic_domain (prod : Product) : Str × Rat × List Str :=
  let text := blobOf prod
  if kw3d.any (fun k => strIn k text) then
    (strL ("3d_printing"), mkRat 95 100, [strL ("material/keywords 3d")])
  else if footwear_kw.any (fun k => strIn k text) || searchEuNum text then
    (strL ("footwear"), mkRat 85 100, [strL ("keywords/talla footwear")])
  else if apparel_kw.any (fun k => strIn k text) || strIn (strL ("talla")) text then
    (strL ("apparel"), mkRat 75 100, [strL ("keywords talla apparel")])
  else if elec_kw.any (fun k => strIn k text) then
    (strL ("electronics"), mkRat 70 100, [strL ("keywords electronics")])
  else if food_kw.any (fun k => strIn k text) then
    (strL ("food"), mkRat 70 100, [strL ("keywords food")])
  else if service_kw.any (fun k => strIn k text) then
    (strL ("service"), mkRat 70 100, [strL ("keywords service")])
  else
    (strL ("generic"), mkRat 40 100, [strL ("no strong signals")])

/-- One keyword rule of the priority list: a predicate on the blob plus
the fixed result it returns. -/
structure HRule where
  pred : Str → Bool
  domain : Str
  conf : Rat
  signals : List Str

/-- The classifier's rules in their fixed priority order (spec-side
description used to state the first-match-wins property). -/
def RULES_PRIORITY : List HRule :=
  [⟨fun t => kw3d.any (fun k => strIn k t), strL ("3d_printing"), mkRat 95 100,
    [strL ("material/keywords 3d")]⟩,
   ⟨fun t => footwear_kw.any (fun k => strIn k t) || searchEuNum t,
    strL ("footwear"), mkRat 85 100, [strL ("keywords/talla footwear")]⟩,
   ⟨fun t => apparel_kw.any (fun k => strIn k t) || strIn (strL ("talla")) t,
    strL ("apparel"), mkRat 75 100, [strL ("keywords talla apparel")]⟩,
   ⟨fun t => elec_kw.any (fun k => strIn k t), strL ("electronics"),
    mkRat 70 100, [strL ("keywords electronics")]⟩,
   ⟨fun t => food_kw.any (fun k => strIn k t), strL ("food"), mkRat 70 100,
    [strL ("keywords food")]⟩,
   ⟨fun t => service_kw.any (fun k => strIn k t), strL ("service"),
    mkRat 70 100, [strL ("keywords service")]⟩]

/-- Result of evaluating the priority list: the first matching rule's
output, else the generic fallback. -/
def firstRuleResult (prod : Product) : Str × Rat × List Str :=
  match RULES_PRIORITY.find? (fun r => r.pred (blobOf prod)) with
  | some r => (r.domain, r.conf, r.signals)
  | none => (strL ("generic"), mkRat 40 100, [strL ("no strong signals")])

/-- Decimal literal parsing for `float(...)` (sign, digits, optional
fraction — the only shapes the pipeline's data takes). -/
def digitsVal (cs : Str) : Option Nat :=
  if cs ≠ [] ∧ cs.all Char.isDigit then
    some (cs.foldl (fun n c => 10 * n + (c.toNat - ('0').toNat)) 0)
  else none

def parseDec (s : Str) : Option Rat :=
  let signed : Bool × Str :=
    match s with
    | '-' :: r => (true, r)
    | '+' :: r => (false, r)
    | r => (false, r)
  let t := signed.2
  let ip := t.takeWhile (· ≠ '.')
  let v : Option Rat :=
    match t.dropWhile (· ≠ '.') with
    | [] => (digitsVal ip).map (fun n => mkRat n 1)
    | _ :: fp => do
      let i ← digitsVal ip
      let f ← digitsVal fp
      pure (mkRat (i * 10 ^ fp.length + f) (10 ^ fp.length))
  v.map (fun q => if signed.1 then -q else q)

/-- Models `float(conf)` under `try/except`: `none` models the exception. -/
def floatOf : J → Option Rat
  | .jnum r => parseDec r
  | .jstr s => parseDec (pyStrip s)
  | .jbool b => some (if b then 1 else 0)
  | _ => none

/-- Models `max(0.0, min(1.0, conf))`. -/
def clamp01 (q : Rat) : Rat := max 0 (min 1 q)

def ALLOWED_DOMAINS : List Str :=
  [strL ("3d_printing"), strL ("footwear"), strL ("apparel"),
   strL ("electronics"), strL ("food"), strL ("service"), strL ("generic")]

/-- The module-level configuration constants of iteration 002 that the
control flow reads (`USE_OLLAMA`, `DOMAIN_MODE`,
`HEURISTIC_CONF_THRESHOLD`), made explicit. -/
structure Config002 where
  use_ollama : Bool
  domain_mode : Str
  threshold : Rat

/-- The values set at the top of the file. -/
def config002 : Config002 := ⟨true, strL ("auto"), mkRat 70 100⟩

/-- The `(domain, confidence, signals, method)` tuple `choose_domain`
returns.  `signals` holds JSON values because a generation-assisted
classification may deliver non-string entries. -/
structure DomainChoice where
  domain : Str
  conf : Rat
  signals : List J
  method : Str

/-- Models `choose_domain` (002:282): forced mode, else heuristic, escalating
to a generation-assisted classification below the confidence threshold.
`classifyO` is the outcome of the (single) `ollama_classify` call; the
returned `List Call` records whether that adapter call was made. -/
def choose_domain (cfg : Config002) (classifyO : Except Str (List (Str × J)))
    (prod : Product) (i : Nat) (ts : Str) :
    DomainChoice × List ErrEntry × List Call :=
  if cfg.domain_mode ≠ strL ("auto") then
    (⟨cfg.domain_mode, 1, [J.jstr (strL ("forced by config"))], strL ("forced")⟩,
     [], [])
  else
    let h := heuristic_domain prod
    let hsJ := h.2.2.map J.jstr
    if ¬cfg.use_ollama ∨ cfg.threshold ≤ h.2.1 then
      (⟨h.1, h.2.1, hsJ, strL ("heuristic")⟩, [], [])
    else
      let fb := fun (e : Str) =>
        (⟨h.1, h.2.1, hsJ, strL ("heuristic_fallback")⟩,
         [⟨i, strL ("classify"), pget prod (strL ("nombre")), e, ts⟩],
         [Call.classify])
      match classifyO with
      | .error e => fb e
      | .ok c =>
        match safeTextJ (dgetD c (strL ("domain")) (J.jstr [])) with
        | none => fb (strL ("AttributeError"))
        | some d0 =>
          let domain1 := if d0 = [] then h.1 else d0
          let sig :=
            match dlookup c (strL ("signals")) with
            | some (.jarr xs) => xs
            | some _ => hsJ
            | none => hsJ
          let domain2 := if ALLOWED_DOMAINS.contains domain1 then domain1 else h.1
          let conf :=
            match dlookup c (strL ("confidence")) with
            | none => h.2.1
            | some v => (floatOf v).getD h.2.1
          (⟨domain2, clamp01 conf, sig.take 4, strL ("ollama_classify")⟩,
           [], [Call.classify])

/-- Models `short_desc` of `fallback_enrich` (002:411). -/
def fallback_short_desc (desc : Str) : Str :=
  if desc.length ≤ 140 then desc else pyRstrip (desc.take 137) ++ strL ("...")

/-- The field values `fallback_enrich` resolves at entry (002:401). -/
def fbNombre (prod : Product) : Str :=
  orStr (pget prod (strL ("nombre"))) (strL ("Producto"))
def fbCategoria (prod : Product) : Str :=
  orStr (pget prod (strL ("categoria"))) (pget prod (strL ("category")))
def fbMaterial (prod : Product) : Str := pget prod (strL ("material"))
def fbTamano (prod : Product) : Str :=
  orStr (pget prod (strL ("tamano"))) (pget prod (strL ("size")))
def fbTalla (prod : Product) : Str :=
  orStr (pget prod (strL ("talla"))) (pget prod (strL ("numero")))
def fbColor (prod : Product) : Str := pget prod (strL ("color"))
def fbMarca (prod : Product) : Str := pget prod (strL ("marca"))

/-- Models `bullets` of `fallback_enrich` (002:413): domain-specific bullets
from present fields, padded to 3, capped at `MAX_BULLETS = 5`,
first-occurrence de-duplicated. -/
def fallback_bullets (prod : Product) (domain : Str) : List Str :=
  let categoria := fbCategoria prod
  let material := fbMaterial prod
  let tamano := fbTamano prod
  let talla := fbTalla prod
  let color := fbColor prod
  let marca := fbMarca prod
  let bullets0 :=
    (if categoria ≠ [] then
      [strL ("Ideal para ") ++ pyLower categoria ++ ['.']] else []) ++
    (if domain = strL ("3d_printing") then
      (if material ≠ [] then [strL ("Fabricado en ") ++ material ++ ['.']] else []) ++
      (if tamano ≠ [] then [strL ("Tamaño: ") ++ tamano ++ ['.']] else []) ++
      [strL ("Diseño práctico para escritorio y organización.")]
    else if domain = strL ("footwear") then
      (if talla ≠ [] then [strL ("Tallas disponibles: ") ++ talla ++ ['.']] else []) ++
      (if color ≠ [] then [strL ("Color: ") ++ color ++ ['.']] else []) ++
      [strL ("Pensado para comodidad y uso diario.")]
    else
      (if marca ≠ [] then [strL ("Marca: ") ++ marca ++ ['.']] else []) ++
      (if material ≠ [] then [strL ("Material: ") ++ material ++ ['.']] else []) ++
      [strL ("Producto pensado para un uso práctico y claro.")])
  let bullets1 := bullets0 ++
    List.replicate (3 - bullets0.length) (strL ("Buena opción para uso cotidiano."))
  dedupFromKeys (bullets1.take 5)

/-- Models `tags` of `fallback_enrich` (002:441): slugified present fields plus
the domain, de-duplicated, capped at `MAX_TAGS = 10`, padded with
generic tokens when fewer than 5 remain. -/
def fallback_tags (prod : Product) (domain : Str) : List Str :=
  let fields := [fbCategoria prod, fbMaterial prod, fbTamano prod,
                 fbTalla prod, fbColor prod, fbMarca prod]
  let tags0 := fields.filterMap (fun t =>
    let t' := pyLower (safe_text t)
    if t' ≠ [] then some (slugify_ascii t' 40) else none)
  let tags1 := (dedupFromKeys ((tags0 ++ [domain]).filter (· ≠ []))).take 10
  if tags1.length < 5 then
    (dedupFromKeys (tags1 ++
      [strL ("catalogo"), strL ("producto"), strL ("oferta"), strL ("recomendado")])).take 10
  else tags1

/-- Models `faq` of `fallback_enrich` (002:454). -/
def fallback_faq : List (Str × Str) :=
  [(strL ("¿Cómo se usa?"),
    strL ("Se utiliza según el propósito descrito en la ficha del producto.")),
   (strL ("¿Se puede personalizar?"),
    strL ("Depende del producto. Si aplica, se puede ajustar bajo pedido."))]

/-- Models `fallback_enrich` (002:400): a contract-shaped result built purely
from record fields and fixed templates — no generation call. -/
def fallback_enrich (prod : Product) (domain : Str) : List (Str × J) :=
  let nombre := fbNombre prod
  let desc := pget prod (strL ("descripcion"))
  let short_desc := fallback_short_desc desc
  [(strL ("slug"), J.jstr (slugify_ascii nombre)),
   (strL ("short_desc"), J.jstr short_desc),
   (strL ("bullets"), J.jarr ((fallback_bullets prod domain).map J.jstr)),
   (strL ("tags"), J.jarr ((fallback_tags prod domain).map J.jstr)),
   (strL ("seo_title"), J.jstr (nombre.take 60)),
   (strL ("seo_description"), J.jstr ((orStr short_desc nombre).take 155)),
   (strL ("faq"), J.jarr (fallback_faq.map (fun p =>
     J.jobj [(strL ("q"), J.jstr p.1), (strL ("a"), J.jstr p.2)])))]

/-- The FAQ normalization loop of `normalize_enriched` (002:513):
entries missing question or answer are dropped, stop at 3. -/
def normFaq : List J → List (Str × Str) → Option (List (Str × Str))
  | [], acc => some acc
  | item :: rest, acc => do
    let acc' ←
      match item with
      | .jobj fs => do
        let q ← safeTextJ (dgetD fs (strL ("q")) (J.jstr []))
        let a ← safeTextJ (dgetD fs (strL ("a")) (J.jstr []))
        pure (if q ≠ [] ∧ a ≠ [] then acc ++ [(q, a)] else acc)
      | _ => pure acc
    if acc'.length ≥ 3 then pure acc' else normFaq rest acc'

/-- Models `normalize_enriched` (002:470).  `none` models the uncaught
exceptions of the Python body (truthy non-string field values), which
the caller's `except` turns into the fallback path. -/
def normalize_enriched (prod : Product) (domain : Str)
    (enriched : List (Str × J)) : Option (List (Str × J)) := do
  let nombre := fbNombre prod
  let slug0 ← safeTextJ (dgetD enriched (strL ("slug")) (J.jstr []))
  let slug := slugify_ascii (orStr slug0 (slugify_ascii nombre))
  let sd0 ← safeTextJ (dgetD enriched (strL ("short_desc")) (J.jstr []))
  let short_desc1 := orStr sd0 ((safe_text (pget prod (strL ("descripcion")))).take 140)
  let short_desc :=
    if short_desc1.length > 140 then pyRstrip (short_desc1.take 137) ++ strL ("...")
    else short_desc1
  let bulletsJ :=
    match dlookup enriched (strL ("bullets")) with
    | some (.jarr xs) => xs
    | _ => []
  let bulletsS ← bulletsJ.mapM safeTextJ
  let bullets1 := (bulletsS.filter (· ≠ [])).take 5
  let bullets :=
    if bullets1.length < 3 then
      dedupFromKeys ((bullets1 ++ fallback_bullets prod domain).take 5)
    else bullets1
  let tagsJ :=
    match dlookup enriched (strL ("tags")) with
    | some (.jarr xs) => xs
    | _ => []
  let tagsS ← tagsJ.mapM safeTextJ
  let tags1 := (tagsS.filter (· ≠ [])).map (fun t => slugify_ascii t 40)
  let base_tags :=
    ([strL ("categoria"), strL ("material"), strL ("tamano"), strL ("talla"),
      strL ("numero"), strL ("color"), strL ("marca")]).filterMap (fun k =>
      let v := pyLower (safe_text (pget prod k))
      if v ≠ [] then some (slugify_ascii v 40) else none)
  let tags2 := (dedupFromKeys (base_tags ++ tags1 ++ [domain])).take 10
  let tags :=
    if tags2.length < 5 then (dedupFromKeys (tags2 ++ fallback_tags prod domain)).take 10
    else tags2
  let st0 ← safeTextJ (dgetD enriched (strL ("seo_title")) (J.jstr []))
  let seo_title := (orStr st0 nombre).take 60
  let sde0 ← safeTextJ (dgetD enriched (strL ("seo_description")) (J.jstr []))
  let seo_description := (orStr sde0 short_desc).take 155
  let faqJ :=
    match dlookup enriched (strL ("faq")) with
    | some (.jarr xs) => xs
    | _ => []
  let faq0 ← normFaq faqJ []
  let faq := if faq0.length < 2 then (faq0 ++ fallback_faq).take 3 else faq0
  pure
    [(strL ("slug"), J.jstr slug),
     (strL ("short_desc"), J.jstr short_desc),
     (strL ("bullets"), J.jarr (bullets.map J.jstr)),
     (strL ("tags"), J.jarr (tags.map J.jstr)),
     (strL ("seo_title"), J.jstr seo_title),
     (strL ("seo_description"), J.jstr seo_description),
     (strL ("faq"), J.jarr (faq.map (fun p =>
       J.jobj [(strL ("q"), J.jstr p.1), (strL ("a"), J.jstr p.2)])))]

/-- The per-record cache key (002:562):
`sha1_key({"domain": domain, "fields": prod})` with sorted keys and
compact separators (`"domain" < "fields"` lexicographically). -/
def cache_key (hash : Str → Str) (domain : Str) (fields : Product) : Str :=
  hash ('{' :: (jsonQuote (strL ("domain")) ++ ':' :: jsonQuote domain ++
    ',' :: jsonQuote (strL ("fields")) ++ ':' :: dumpsSorted fields) ++ ['}'])

/-- Numeric JSON value for a confidence; its textual representation is
never inspected by the pipeline. -/
def jRat (q : Rat) : J := J.jnum ((toString q.num).data ++ '/' :: (toString q.den).data)

/-- What processing one record produces (002:558-590): the domain info
and enrichment emitted, the updated cache, appended error entries, and
the Generation Client Adapter calls that were made. -/
structure ProcOut where
  domain_info : J
  enriched : J
  cache : List (Str × J)
  errors : List ErrEntry
  calls : List Call

/-- The per-record control flow of `main` (002:558): domain choice,
cache-key computation, cache lookup, and on miss the
generation/normalization/fallback step followed by the cache write.
`classifyO`/`enrichO` are the outcomes the two possible adapter calls
would deliver. -/
def process_record (cfg : Config002) (hash : Str → Str)
    (classifyO : Except Str (List (Str × J)))
    (enrichO : Except Str (List (Str × J)))
    (cache : List (Str × J)) (prod : Product) (i : Nat) (ts : Str) : ProcOut :=
  let step1 := choose_domain cfg classifyO prod i ts
  let dc := step1.1
  let errs1 := step1.2.1
  let calls1 := step1.2.2
  let key := cache_key hash dc.domain prod
  let dinfoNew := J.jobj
    [(strL ("domain"), J.jstr dc.domain), (strL ("confidence"), jRat dc.conf),
     (strL ("signals"), J.jarr dc.signals), (strL ("method"), J.jstr dc.method)]
  match dlookup cache key with
  | some pack =>
    let packFs := match pack with | .jobj fs => fs | _ => []
    ⟨dgetD packFs (strL ("domain_info")) dinfoNew,
     dgetD packFs (strL ("enriched")) (J.jobj []),
     cache, errs1, calls1⟩
  | none =>
    let step2 : J × List ErrEntry × List Call :=
      if cfg.use_ollama then
        match enrichO with
        | .ok raw =>
          match normalize_enriched prod dc.domain raw with
          | some enr => (J.jobj enr, [], [Call.enrich])
          | none =>
            (J.jobj (fallback_enrich prod dc.domain),
             [⟨i, strL ("enrich"), pget prod (strL ("nombre")),
               strL ("AttributeError"), ts⟩],
             [Call.enrich])
        | .error e =>
          (J.jobj (fallback_enrich prod dc.domain),
           [⟨i, strL ("enrich"), pget prod (strL ("nombre")), e, ts⟩],
           [Call.enrich])
      else (J.jobj (fallback_enrich prod dc.domain), [], [])
    ⟨dinfoNew, step2.1,
     cache ++ [(key, J.jobj [(strL ("domain_info"), dinfoNew),
                             (strL ("enriched"), step2.1)])],
     errs1 ++ step2.2.1, calls1 ++ step2.2.2⟩

end It002

/-! ## `Iteracion/007-enriquecemos prompt/001-enriquecedor_catalogo.py` -/

namespace It007

/-- Models `str(x or "")` on a JSON value (what `compact_whitespace`, `_norm`
and friends apply to their argument first). -/
def jStr0 (b : J) : Str := if pyTruthy b then pyStr b else []

/-- Models `dedupe_near` (007:118): keep an item only when its similarity to
every previously kept item is below the threshold.  `sim` models
`_sim` (the normalized `difflib.SequenceMatcher().ratio()`); the
function's behaviour is uniform in it. -/
def dedupe_near_go (sim : Str → Str → Rat) (threshold : Rat) :
    List Str → List Str → List Str
  | out, [] => out
  | out, it :: rest =>
    let it' := pyStrip it
    if it' = [] then dedupe_near_go sim threshold out rest
    else if out.any (fun prev => threshold ≤ sim it' prev) then
      dedupe_near_go sim threshold out rest
    else dedupe_near_go sim threshold (out ++ [it']) rest

def dedupe_near (sim : Str → Str → Rat) (items : List Str) (threshold : Rat) :
    List Str :=
  dedupe_near_go sim threshold [] items

/-- The model-bullet cleaning stage of `normalize_enriched`
(007:282-295): stringify/trim, drop `:`, near-duplicate de-dup at 0.90,
then drop bullets ≥ 0.82-similar to the short description. -/
def bullets_clean (sim : Str → Str → Rat) (bulletsRaw : List J)
    (short_desc : Str) : List Str :=
  let b1 := (bulletsRaw.map (fun b => pyStrip (pyStr b))).filter (· ≠ [])
  let b2 := b1.map (fun b => pyStrip (b.filter (· ≠ ':')))
  let b3 := dedupe_near sim b2 (mkRat 90 100)
  b3.filter (fun b => ¬(mkRat 82 100 ≤ sim b short_desc))

/-- Models `fallback_pool` (007:298). -/
def fallback_pool : List Str :=
  [strL ("Diseño pensado para uso diario"),
   strL ("Ideal para regalo o escritorio"),
   strL ("Acabado limpio y elegante"),
   strL ("Fácil de usar y mantener"),
   strL ("Listo para tu setup o casa")]

/-- The `while len(bullets) < 3` padding loop (007:305): each pass adds
exactly one bullet, so 3 passes always suffice. -/
def pad_bullets (sim : Str → Str → Rat) (fuel : Nat) (bullets : List Str) :
    List Str :=
  match fuel with
  | 0 => bullets
  | fuel + 1 =>
    if bullets.length < 3 then
      let cand := fallback_pool.getD (bullets.length % 5) []
      let b' :=
        if ¬bullets.any (fun x => mkRat 90 100 ≤ sim cand x) then bullets ++ [cand]
        else bullets ++ [strL ("Listo para usar")]
      pad_bullets sim fuel b'
    else bullets

/-- The full bullets pipeline of `normalize_enriched` (007:282-311). -/
def normalize_bullets (sim : Str → Str → Rat) (bulletsRaw : List J)
    (short_desc : Str) : List Str :=
  (pad_bullets sim 3 (bullets_clean sim bulletsRaw short_desc)).take 3

/-- Python `d[k] = v` on a dict modelled as an ordered association
list: replace in place if present, else append. -/
def dupdate : List (Str × J) → Str → J → List (Str × J)
  | [], k, v => [(k, v)]
  | e :: rest, k, v =>
    if e.1 = k then (e.1, v) :: rest else e :: dupdate rest k v

/-- The normalized enrichment record of iteration 007 (keys of the
dict `normalize_enriched` returns). -/
structure Enr007 where
  slug : Str
  short_desc : Str
  bullets : List Str
  tags : List Str
  seo_title : Str
  seo_description : Str

/-- The keys the enrichment step writes into the emitted item
(the six enrichment fields and the metadata key). -/
def ENRICH_KEYS : List Str :=
  [strL ("slug"), strL ("short_desc"), strL ("bullets"), strL ("tags"),
   strL ("seo_title"), strL ("seo_description"), strL ("_meta")]

/-- The value the enrichment step writes for key `k`. -/
def enrichVal (e : Enr007) (meta : J) (k : Str) : J :=
  if k = strL ("slug") then J.jstr e.slug
  else if k = strL ("short_desc") then J.jstr e.short_desc
  else if k = strL ("bullets") then J.jarr (e.bullets.map J.jstr)
  else if k = strL ("tags") then J.jarr (e.tags.map J.jstr)
  else if k = strL ("seo_title") then J.jstr e.seo_title
  else if k = strL ("seo_description") then J.jstr e.seo_description
  else meta

/-- The emitted item construction (007:508-520):
`out_item = dict(product)`, `out_item.update(enriched)`,
`out_item["_meta"] = …`. -/
def out_item (product : Product) (e : Enr007) (meta : J) : List (Str × J) :=
  let d0 := product.map (fun f => (f.1, J.jstr f.2))
  let d1 := dupdate d0 (strL ("slug")) (J.jstr e.slug)
  let d2 := dupdate d1 (strL ("short_desc")) (J.jstr e.short_desc)
  let d3 := dupdate d2 (strL ("bullets")) (J.jarr (e.bullets.map J.jstr))
  let d4 := dupdate d3 (strL ("tags")) (J.jarr (e.tags.map J.jstr))
  let d5 := dupdate d4 (strL ("seo_title")) (J.jstr e.seo_title)
  let d6 := dupdate d5 (strL ("seo_description")) (J.jstr e.seo_description)
  dupdate d6 (strL ("_meta")) meta

end It007

/-! ## `Iteracion/008-prompt estricto y tags sin guiones/001-enriquecedor_catalogo.py` -/

namespace It008

/-- Models `strip_accents` (008:70), on the string the code always makes of
its argument first. -/
def strip_accents (s : Str) : Str := s.map stripAccentChar

/-- Models `norm_for_compare` (008:78): strip accents, lower, non-alphanumerics
to spaces, collapse whitespace, trim. -/
def norm_for_compare (s : Str) : Str :=
  let s1 := pyLower (strip_accents s)
  let s2 := s1.map (fun c =>
    if ('a' ≤ c ∧ c ≤ 'z') ∨ ('0' ≤ c ∧ c ≤ '9') ∨ c.isWhitespace then c else ' ')
  pyStrip (replaceRuns Char.isWhitespace ' ' s2 false)

/-- Models `compact_whitespace` (008:131). -/
def compact_whitespace (s : Str) : Str :=
  replaceRuns Char.isWhitespace ' ' (pyStrip s) false

/-- Models `is_empty` (008:127). -/
def is_empty (v : Option Str) : Bool :=
  match v with
  | none => true
  | some s => pyStrip s = []

/-- Models `snake_tag` (008:92).  Note: unlike the other slug helpers it has
no non-empty fallback. -/
def snake_tag (s : Str) (maxlen : Nat := 32) : Str :=
  let s1 := pyLower (pyStrip (strip_accents s))
  let s2 := s1.filter
    (fun c => ('a' ≤ c ∧ c ≤ 'z') ∨ ('0' ≤ c ∧ c ≤ '9') ∨ c.isWhitespace ∨ c = '-')
  let s3 := replaceRuns (fun c => c.isWhitespace ∨ c = '-') '_' s2 false
  let s4 := ((s3.dropWhile (· = '_')).reverse.dropWhile (· = '_')).reverse
  s4.take maxlen

/-- Models `slugify` (008:85). -/
def slugify (s : Str) (maxlen : Nat := 80) : Str :=
  let s1 := pyLower (pyStrip (strip_accents s))
  let s2 := s1.filter (fun c => c.isAlphanum ∨ c = '_' ∨ c.isWhitespace ∨ c = '-')
  let s3 := replaceRuns (fun c => c.isWhitespace ∨ c = '_' ∨ c = '-') '-' s2 false
  let s4 := ((s3.dropWhile (· = '-')).reverse.dropWhile (· = '-')).reverse
  (if s4 = [] then strL ("item") else s4).take maxlen

/-- Models `str(x or "")` on a JSON value. -/
def jStr0 (b : J) : Str := if pyTruthy b then pyStr b else []

/-- Models `add_if` inside `fill_bullets_from_fields` (008:361): append the
compacted text unless the target count is reached, the text is blank,
or an existing bullet has the same normalized form. -/
def add_if (target : Nat) (bullets : List Str) (text : Str) : List Str :=
  if target ≤ bullets.length then bullets
  else
    let t := compact_whitespace text
    if t = [] then bullets
    else if bullets.any (fun x => norm_for_compare x = norm_for_compare t) then
      bullets
    else bullets ++ [t]

/-- The 3D-printing signal keywords of `fill_bullets_from_fields`
(008:379). -/
def kw3d : List Str :=
  [strL ("pla"), strL ("petg"), strL ("abs"), strL ("asa"), strL ("resina"),
   strL ("impreso en 3d"), strL ("impresion 3d"), strL ("impresión 3d")]

/-- The field-derived candidate bullets `fill_bullets_from_fields`
attempts, in program order (008:372-395): each is guarded by the
presence of the corresponding record field (or the 3D keyword signal)
and carries that field's value. -/
def field_candidates (product : Product) : List Str :=
  let nombre := pyLower (pget product (strL ("nombre")))
  let desc := pyLower (pget product (strL ("descripcion")))
  let material := pyStrip (pget product (strL ("material")))
  let categoria := pyStrip (pget product (strL ("categoria")))
  let blob3d := pyLower material ++ ' ' :: desc ++ ' ' :: nombre
  (if kw3d.any (fun k => strIn k blob3d) then [strL ("Impresión 3D precisa")] else []) ++
  (if material ≠ [] then [strL ("Material: ") ++ material] else []) ++
  (if categoria ≠ [] then [strL ("Categoría: ") ++ categoria] else []) ++
  (if ¬is_empty (pget? product (strL ("bateria_horas"))) then
    [strL ("Autonomía: ") ++ pget product (strL ("bateria_horas")) ++ strL (" h")] else []) ++
  (if ¬is_empty (pget? product (strL ("capacidad_mah"))) then
    [strL ("Capacidad: ") ++ pget product (strL ("capacidad_mah")) ++ strL (" mAh")] else []) ++
  (if ¬is_empty (pget? product (strL ("conectividad"))) then
    [strL ("Conectividad: ") ++ pget product (strL ("conectividad"))] else []) ++
  (if ¬is_empty (pget? product (strL ("conexion"))) then
    [strL ("Conexión: ") ++ pget product (strL ("conexion"))] else [])

/-- All candidate bullets in program order (008:372-398): the
field-derived candidates first, then — only as the final attempts —
the two generic filler phrases. -/
def candidate_texts (product : Product) : List Str :=
  field_candidates product ++
    [strL ("Listo para usar"), strL ("Diseño funcional")]

/-- Models `fill_bullets_from_fields` (008:355): run the `add_if` attempts in
program order, then truncate. -/
def fill_bullets_from_fields (product : Product) (current : List Str)
    (target : Nat := 3) : List Str :=
  ((candidate_texts product).foldl (add_if target) current).take target

/-- The record the `normalize_enrichment` dict carries. -/
structure Enr008 where
  slug : Str
  short_desc : Str
  bullets : List Str
  tags : List Str
  seo_title : Str
  seo_description : Str
  deriving DecidableEq

/-- The bullet de-duplication loop of `normalize_enrichment`
(008:299-308): drop blanks, repeats (by normalized form) and bullets
whose normalized form is contained in the short description or the
source description. -/
def dedup_bullets (short_desc desc_src : Str) :
    List Str → List Str → List Str
  | _, [] => []
  | seen, b :: rest =>
    let bn := norm_for_compare b
    if bn = [] ∨ seen.contains bn then dedup_bullets short_desc desc_src seen rest
    else
      let sn := norm_for_compare short_desc
      let dn := norm_for_compare desc_src
      if (sn ≠ [] ∧ strIn bn sn) ∨ (dn ≠ [] ∧ strIn bn dn) then
        dedup_bullets short_desc desc_src seen rest
      else b :: dedup_bullets short_desc desc_src (bn :: seen) rest

/-- Models `normalize_enrichment` (008:262) on a JSON object.  The record
fields are resolved exactly as the code does. -/
def normalize_enrichment_obj (product : Product) (fs : List (Str × J)) : Enr008 :=
  let nombre := pyStrip (pget product (strL ("nombre")))
  let marca := pyStrip (pget product (strL ("marca")))
  let desc_src := pyStrip (pget product (strL ("descripcion")))
  let slug0 :=
    match dlookup fs (strL ("slug")) with
    | some v =>
      if pyTruthy v then pyStr v
      else nombre ++ (if marca ≠ [] then ' ' :: marca else [])
    | none => nombre ++ (if marca ≠ [] then ' ' :: marca else [])
  let slug := slugify slug0
  let short_desc1 :=
    compact_whitespace (jStr0 (dgetD fs (strL ("short_desc")) J.jnull))
  let short_desc :=
    if short_desc1 = [] then orStr (compact_whitespace desc_src) nombre
    else short_desc1
  let bullets0 :=
    match dlookup fs (strL ("bullets")) with
    | some (.jarr xs) => (xs.map (fun b => compact_whitespace (jStr0 b))).filter (· ≠ [])
    | _ => []
  let bullets1 := (dedup_bullets short_desc desc_src [] bullets0).take 3
  let bullets :=
    if bullets1.length < 3 then fill_bullets_from_fields product bullets1 3
    else bullets1
  let tags0 :=
    match dlookup fs (strL ("tags")) with
    | some (.jarr xs) => (xs.map (fun t => snake_tag (pyStr t))).filter (· ≠ [])
    | _ => []
  let extra_tags :=
    ([strL ("categoria"), strL ("material"), strL ("marca"), strL ("modelo")]).filterMap
      (fun k =>
        let t := snake_tag (pget product k)
        if t ≠ [] then some t else none)
  let tags := (dedupFromKeys ((tags0 ++ extra_tags).filter (· ≠ []))).take 10
  let seo_title1 :=
    compact_whitespace (jStr0 (dgetD fs (strL ("seo_title")) J.jnull))
  let seo_title :=
    (if seo_title1 = [] then
      (if marca ≠ [] then pyStrip (nombre ++ ' ' :: marca) else nombre)
    else seo_title1).take 60
  let seo_desc1 :=
    compact_whitespace (jStr0 (dgetD fs (strL ("seo_description")) J.jnull))
  let seo_desc :=
    (if seo_desc1 = [] then (orStr desc_src (orStr short_desc nombre)).take 160
     else seo_desc1).take 160
  { slug := slug, short_desc := short_desc, bullets := bullets.take 3,
    tags := tags, seo_title := seo_title, seo_description := seo_desc }

/-- Models `normalize_enrichment` (008:262): raises (`none`) when the parsed
enrichment is not a JSON object (`enrich.get` fails). -/
def normalize_enrichment (product : Product) (enrich : J) : Option Enr008 :=
  match enrich with
  | .jobj fs => some (normalize_enrichment_obj product fs)
  | _ => none

/-- The all-empty enrichment dict the fallback path feeds to
`normalize_enrichment` (008:495). -/
def emptyEnrichObj : J :=
  J.jobj
    [(strL ("slug"), J.jstr []), (strL ("short_desc"), J.jstr []),
     (strL ("bullets"), J.jarr []), (strL ("tags"), J.jarr []),
     (strL ("seo_title"), J.jstr []), (strL ("seo_description"), J.jstr [])]

/-- The Fallback Generator of iteration 008: normalization of the
all-empty dict, built purely from record fields. -/
def fallback_output (product : Product) : Option Enr008 :=
  normalize_enrichment product emptyEnrichObj

/-- Models `product.get("nombre", f"producto_{i}")` (008:433). -/
def nombreOf (product : Product) (i : Nat) : Str :=
  match pget? product (strL ("nombre")) with
  | some v => v
  | none => strL ("producto_") ++ (toString i).data

/-- The retry loop of `main` (008:461-484).  `gen attempt` is the
outcome of the `ollama_enrich` call of that attempt (`.error` = any
raised exception, carrying `str(e)`); `repair` is the result of
`try_repair_json`, which catches its own exceptions and returns `None`
on any failure.  The state threads `last_err` and `raw_txt` exactly as
the code does; the result carries the method string on success and the
final `last_err` on exhaustion. -/
def enrich_loop (gen : Nat → Except Str J) (repair : Str → Option J)
    (product : Product) :
    Nat → Nat → Str → Str → Option (Enr008 × Str) × Str
  | _, 0, last_err, _ => (none, last_err)
  | attempt, fuel + 1, last_err, raw_txt =>
    match gen attempt with
    | .ok raw =>
      match normalize_enrichment product raw with
      | some enr => (some (enr, strL ("ollama")), last_err)
      | none =>
        let e := strL ("AttributeError")
        let rep : Option Enr008 :=
          if raw_txt ≠ [] then
            match repair raw_txt with
            | some r => normalize_enrichment product r
            | none => none
          else none
        match rep with
        | some enr => (some (enr, strL ("ollama_repair")), e)
        | none => enrich_loop gen repair product (attempt + 1) fuel e e
    | .error e =>
      let rep : Option Enr008 :=
        if raw_txt ≠ [] then
          match repair raw_txt with
          | some r => normalize_enrichment product r
          | none => none
        else none
      match rep with
      | some enr => (some (enr, strL ("ollama_repair")), e)
      | none => enrich_loop gen repair product (attempt + 1) fuel e e

/-- The cache-miss enrichment step of `main` (008:458-503) with
`OLLAMA_ENABLED = True` and `MAX_RETRIES = 1` (two attempts): the
normalized result with its method, plus the Error Ledger entries
appended for this record. -/
def enrich_step (gen : Nat → Except Str J) (repair : Str → Option J)
    (product : Product) (i : Nat) (ts : Str) :
    Option Enr008 × Str × List ErrEntry :=
  match enrich_loop gen repair product 0 2 [] [] with
  | (some (enr, m), _) => (some enr, m, [])
  | (none, last_err) =>
    (fallback_output product, strL ("fallback"),
     [⟨i, strL ("enrich"), nombreOf product i, last_err, ts⟩])

end It008

/-- Models `a` is an initial segment of `b` (used to track how the bullet
list only grows at its end through the `add_if` attempts). -/
def isInit {α : Type} (a b : List α) : Prop := ∃ t, a ++ t = b

/-! # Theorems -/

/-! ## Response Extractor (claims C5, C9) -/

theorem netDepth_append (a b : Str) :
    VF.netDepth (a ++ b) = VF.netDepth a + VF.netDepth b := by
  induction a with
  | nil => simp [VF.netDepth]
  | cons c a ih => simp [VF.netDepth, ih]; ring

theorem scanDepth_step (c : Char) (d : Int) :
    (if c = '{' then d + 1 else if c = '}' then d - 1 else d) =
      d + VF.braceDelta c := by
  unfold VF.braceDelta
  by_cases h1 : c = '{' <;> by_cases h2 : c = '}' <;> simp [h1, h2]
  all_goals omega

theorem braceDelta_cases (c : Char) :
    VF.braceDelta c = 1 ∧ c = '{' ∨ VF.braceDelta c = -1 ∧ c = '}' ∨
      VF.braceDelta c = 0 := by
  unfold VF.braceDelta
  by_cases h1 : c = '{' <;> by_cases h2 : c = '}' <;> simp [h1, h2]

theorem scanDepth_closes (b : Str) : ∀ (acc : Str) (d : Int) (rest : Str),
    0 < d →
    d + VF.netDepth b = 0 →
    (∀ k, k < b.length → 0 < d + VF.netDepth (b.take k)) →
    VF.scanDepth (b ++ rest) acc d = acc ++ b := by
  induction b with
  | nil =>
    intro acc d rest hd hnet _
    simp [VF.netDepth] at hnet
    omega
  | cons c b ih =>
    intro acc d rest hd hnet hpos
    have hnetc : VF.netDepth (c :: b) = VF.braceDelta c + VF.netDepth b := rfl
    show VF.scanDepth (c :: (b ++ rest)) acc d = acc ++ (c :: b)
    unfold VF.scanDepth
    rw [scanDepth_step]
    cases b with
    | nil =>
      -- the depth must reach zero on this character, which is a `}`
      have hdelta : VF.braceDelta c = -d := by
        simp [VF.netDepth] at hnet; omega
      rcases braceDelta_cases c with ⟨h1, _⟩ | ⟨h1, hc⟩ | h1
      · omega
      · have hdz : d + VF.braceDelta c = 0 := by omega
        subst hc
        rw [if_pos ⟨rfl, hdz⟩]
      · omega
    | cons c2 b2 =>
      -- strictly positive depth after this character: no early return
      have hpos1 := hpos 1 (by simp)
      have h1 : VF.netDepth ((c :: c2 :: b2).take 1) = VF.braceDelta c := by
        simp [VF.netDepth]
      rw [h1] at hpos1
      have hguard : ¬(c = '}' ∧ d + VF.braceDelta c = 0) := by
        rintro ⟨_, h⟩; omega
      rw [if_neg hguard]
      have := ih (acc ++ [c]) (d + VF.braceDelta c) rest hpos1
        (by rw [hnetc] at hnet; omega)
        (by
          intro k hk
          have := hpos (k + 1) (by simpa using Nat.succ_lt_succ hk)
          have htake : VF.netDepth ((c :: c2 :: b2).take (k + 1)) =
              VF.braceDelta c + VF.netDepth ((c2 :: b2).take k) := by
            simp [List.take_succ_cons, VF.netDepth]
          rw [htake] at this
          omega)
      simpa using this

/-- C5 (amended scope): when the trimmed text does not both begin with
`{` and end with `}`, `extract_json_block` returns exactly the balanced
block starting at the first `{`, excluding everything after its
depth-matched `}`. -/
theorem extract_json_block_depth_matched (text pre body rest : Str)
    (hsplit : pyStrip text = pre ++ body ++ rest)
    (hpre : ∀ c ∈ pre, c ≠ '{')
    (hbody : VF.balancedBlock body)
    (hguard : ¬((pyStrip text).head? = some '{' ∧
               (pyStrip text).getLast? = some '}')) :
    VF.extract_json_block text = body := by
  obtain ⟨hh, hnet, hpos⟩ := hbody
  obtain ⟨body', rfl⟩ : ∃ b', body = '{' :: b' := by
    cases body with
    | nil => simp at hh
    | cons x xs => simp at hh; exact ⟨xs, by rw [hh]⟩
  have hne : pyStrip text ≠ [] := by
    rw [hsplit]; simp
  unfold VF.extract_json_block
  rw [if_neg hne, if_neg hguard]
  have hdrop0 : ∀ (p : Str), (∀ c ∈ p, c ≠ '{') →
      List.dropWhile (fun c => c ≠ '{') (p ++ '{' :: (body' ++ rest)) =
        '{' :: (body' ++ rest) := by
    intro p hp
    induction p with
    | nil => simp [List.dropWhile_cons]
    | cons x xs ih =>
      have hx : x ≠ '{' := hp x (List.mem_cons_self _ _)
      simp only [List.cons_append, List.dropWhile_cons]
      rw [if_pos (by simpa using hx)]
      exact ih (fun c hc => hp c (List.mem_cons_of_mem _ hc))
  have hdrop : (pyStrip text).dropWhile (fun c => c ≠ '{') = '{' :: (body' ++ rest) := by
    rw [hsplit]
    have : pre ++ '{' :: body' ++ rest = pre ++ '{' :: (body' ++ rest) := by simp
    rw [this]
    exact hdrop0 pre hpre
  rw [hdrop]
  simp only [List.cons_ne_nil, if_neg, ite_false]
  show VF.scanDepth ('{' :: (body' ++ rest)) [] 0 = '{' :: body'
  unfold VF.scanDepth
  rw [scanDepth_step]
  have hbrace : VF.braceDelta '{' = 1 := by decide
  rw [if_neg (by simp [hbrace])]
  have := scanDepth_closes body' ['{'] (0 + VF.braceDelta '{') rest
    (by rw [hbrace]; omega)
    (by
      have : VF.netDepth ('{' :: body') = VF.braceDelta '{' + VF.netDepth body' := rfl
      rw [this] at hnet; omega)
    (by
      intro k hk
      have := hpos (k + 1) (by omega) (by simpa using Nat.succ_lt_succ hk)
      have htake : VF.netDepth (('{' :: body').take (k + 1)) =
          VF.braceDelta '{' + VF.netDepth (body'.take k) := by
        simp [List.take_succ_cons, VF.netDepth]
      rw [htake] at this
      omega)
  simpa using this

/-- C9: for every input whose trimmed text both begins with `{` and ends
with `}`, `extract_json_block` returns the entire trimmed text unchanged,
performing no brace-balance check — so concatenated objects or unbalanced
inner braces come back whole (and the caller's `json.loads` then fails). -/
theorem c9_extract_braced_returns_whole (text : Str)
    (h1 : (pyStrip text).head? = some '{')
    (h2 : (pyStrip text).getLast? = some '}') :
    VF.extract_json_block text = pyStrip text := by
  have hne : pyStrip text ≠ [] := by
    intro h; rw [h] at h1; simp at h1
  unfold VF.extract_json_block
  rw [if_neg hne, if_pos ⟨h1, h2⟩]

/-- C9 witness: two concatenated JSON objects are returned whole even
though they do not form a single balanced object. -/
theorem c9_extract_braced_returns_whole_witness :
    VF.extract_json_block
        ['{', '"', 'a', '"', ':', '1', '}', '{', '"', 'b', '"', ':', '2', '}'] =
      ['{', '"', 'a', '"', ':', '1', '}', '{', '"', 'b', '"', ':', '2', '}'] ∧
    ¬VF.balancedBlock
        ['{', '"', 'a', '"', ':', '1', '}', '{', '"', 'b', '"', ':', '2', '}'] := by
  constructor
  · have h := c9_extract_braced_returns_whole
      ['{', '"', 'a', '"', ':', '1', '}', '{', '"', 'b', '"', ':', '2', '}']
      (by decide) (by decide)
    rw [h]; decide
  · decide

/-- C5 counterexample: `{"x":0}{"y":9}` is not a single balanced JSON
object, yet `extract_json_block` returns it whole instead of the
depth-matched slice `{"x":0}` the claim prescribes for every input that
is not already a pure JSON object. -/
theorem c5_counterexample :
    ¬VF.balancedBlock
        ['{', '"', 'x', '"', ':', '0', '}', '{', '"', 'y', '"', ':', '9', '}'] ∧
    VF.spec_depth_slice
        ['{', '"', 'x', '"', ':', '0', '}', '{', '"', 'y', '"', ':', '9', '}'] =
      ['{', '"', 'x', '"', ':', '0', '}'] ∧
    VF.extract_json_block
        ['{', '"', 'x', '"', ':', '0', '}', '{', '"', 'y', '"', ':', '9', '}'] =
      ['{', '"', 'x', '"', ':', '0', '}', '{', '"', 'y', '"', ':', '9', '}'] ∧
    VF.extract_json_block
        ['{', '"', 'x', '"', ':', '0', '}', '{', '"', 'y', '"', ':', '9', '}'] ≠
      VF.spec_depth_slice
        ['{', '"', 'x', '"', ':', '0', '}', '{', '"', 'y', '"', ':', '9', '}'] := by
  refine ⟨by decide, by decide, ?_, by decide⟩
  decide

/-- C5 witness: prose before, nested braces inside, and a stray `}`
after the first balanced object — the extractor returns exactly the
depth-matched block. -/
theorem c5_witness :
    VF.extract_json_block
        (['x', ':', ' '] ++ ['{', 'a', '{', '}', 'b', '}'] ++ [' ', 't', '}']) =
      ['{', 'a', '{', '}', 'b', '}'] := by
  apply extract_json_block_depth_matched _ ['x', ':', ' '] _ [' ', 't', '}']
  · decide
  · decide
  · decide
  · decide

/-! ## Normalizer contract totality (claim C2) -/

/-- C2 counterexample: on an empty record with an empty raw object the
final normalizer produces a result with 3 bullets but 0 tags — below
the claimed 6-tag minimum (`normalize_output` enforces no minimum). -/
theorem c2_counterexample :
    (VF.normalize_output [] []).map (fun o => (o.bullets.length, o.tags.length)) =
      some (3, 0) ∧ ¬(6 ≤ 0) := by
  refine ⟨?_, by decide⟩
  decide

/-- C2 (amended): whenever `normalize_output` returns (its string
fields are absent, null or strings), the result always carries all
required fields, with exactly 3 bullets and at most 10 tags — but no
lower bound on the tag count. -/
theorem c2_normalize_output_shape (raw : List (Str × J)) (product : Product)
    (out : VF.EnrichOut) (h : VF.normalize_output raw product = some out) :
    out.bullets.length = 3 ∧ out.tags.length ≤ 10 := by
  unfold VF.normalize_output at h
  cases h1 : VF.strField raw (strL ("slug")) with
  | none => rw [h1] at h; simp at h
  | some slugRaw =>
  rw [h1] at h
  cases h2 : VF.strField raw (strL ("short_desc")) with
  | none => rw [h2] at h; simp at h
  | some sd =>
  rw [h2] at h
  cases h3 : VF.strField raw (strL ("seo_title")) with
  | none => rw [h3] at h; simp at h
  | some st =>
  rw [h3] at h
  cases h4 : VF.strField raw (strL ("seo_description")) with
  | none => rw [h4] at h; simp at h
  | some sde =>
  rw [h4] at h
  simp only [Option.pure_def, Option.bind_eq_bind, Option.some_bind,
    Option.some.injEq] at h
  subst h
  constructor
  · simp only [List.length_map, List.length_take, List.length_append,
      List.length_cons, List.length_nil]
    omega
  · exact le_trans (List.length_take_le _ _) (le_refl 10)

/-- C2 witness: a one-field record through the amended theorem. -/
theorem c2_witness :
    ∃ o, VF.normalize_output [] [(strL ("nombre"), strL ("x"))] = some o ∧
      o.bullets.length = 3 ∧ o.tags.length ≤ 10 := by
  cases hv : VF.normalize_output [] [(strL ("nombre"), strL ("x"))] with
  | none => exact absurd hv (by decide)
  | some o => exact ⟨o, rfl, c2_normalize_output_shape _ _ _ hv⟩

/-! ## Anti-redundancy (claim C4) -/

/-- C4 counterexample: the final version's normalizer performs no
redundancy filtering at all — a raw object whose three bullets all
equal the short description passes through verbatim, so a bullet is a
substring of (indeed equal to) the short description and equal to
another bullet of the same result. -/
theorem c4_counterexample :
    (VF.normalize_output
        [(strL ("short_desc"), J.jstr (strL ("util"))),
         (strL ("bullets"),
          J.jarr [J.jstr (strL ("util")), J.jstr (strL ("util")),
                  J.jstr (strL ("util"))])]
        []).map (fun o => (o.short_desc, o.bullets)) =
      some (strL ("util"),
        [strL ("util"), strL ("util"), strL ("util")]) := by
  decide

theorem dedupe_near_go_pairwise (sim : Str → Str → Rat) (θ : Rat) :
    ∀ (items out : List Str),
      List.Pairwise (fun a b => sim b a < θ) out →
      List.Pairwise (fun a b => sim b a < θ)
        (It007.dedupe_near_go sim θ out items) := by
  intro items
  induction items with
  | nil => intro out h; exact h
  | cons it rest ih =>
    intro out h
    unfold It007.dedupe_near_go
    by_cases h1 : pyStrip it = []
    · simp only [h1, if_pos rfl]
      exact ih out h
    · rw [if_neg h1]
      by_cases h2 : out.any (fun prev => θ ≤ sim (pyStrip it) prev)
      · rw [if_pos h2]
        exact ih out h
      · rw [if_neg h2]
        apply ih
        rw [List.pairwise_append]
        refine ⟨h, List.pairwise_singleton _ _, ?_⟩
        intro a ha b hb
        simp only [List.mem_singleton] at hb
        subst hb
        have hall : ∀ x ∈ out, sim (pyStrip it) x < θ := by simpa using h2
        exact hall a ha

/-- C4 (amended): in iteration 007's normalizer, every bullet that
survives the cleaning stage is below the 0.82 similarity threshold to
the short description, and below the 0.90 near-duplicate threshold to
every earlier surviving bullet — but this filtering exists only in
iteration 007; the final version applies none, and the padded filler
bullets are checked only against other bullets. -/
theorem c4_bullets_clean_anti_redundant (sim : Str → Str → Rat)
    (bulletsRaw : List J) (sd : Str) :
    (∀ b ∈ It007.bullets_clean sim bulletsRaw sd, sim b sd < mkRat 82 100) ∧
    List.Pairwise (fun a b => sim b a < mkRat 90 100)
      (It007.bullets_clean sim bulletsRaw sd) := by
  constructor
  · intro b hb
    unfold It007.bullets_clean at hb
    have := List.of_mem_filter hb
    simpa using lt_of_not_le (by simpa using this)
  · unfold It007.bullets_clean It007.dedupe_near
    apply List.Pairwise.sublist (List.filter_sublist _)
    exact dedupe_near_go_pairwise sim _ _ [] (List.Pairwise.nil)

/-- C4 witness: with an equality-based similarity, the surviving bullet
of a concrete cleaning run is dissimilar to the short description. -/
theorem c4_bullets_clean_witness :
    (fun a b : Str => if a = b then (1 : Rat) else 0)
        (strL ("dos")) (strL ("uno")) < mkRat 82 100 := by
  have h := (c4_bullets_clean_anti_redundant
    (fun a b : Str => if a = b then (1 : Rat) else 0)
    [J.jstr (strL ("uno")), J.jstr (strL ("uno")), J.jstr (strL ("dos"))]
    (strL ("uno"))).1
  exact h (strL ("dos")) (by decide)

/-! ## Classifier priority (claim C6) -/

/-- C6: the heuristic classifier equals first-match evaluation of the
ordered priority list (3d_printing, footwear, apparel, electronics,
food, service): whenever two or more rules match, the result is the
first matching rule's domain, confidence and signals, never a later
rule's. -/
theorem c6_heuristic_first_match (prod : Product) :
    It002.heuristic_domain prod = It002.firstRuleResult prod := by
  unfold It002.heuristic_domain It002.firstRuleResult It002.RULES_PRIORITY
  by_cases h1 : It002.kw3d.any (fun k => strIn k (It002.blobOf prod)) <;>
  by_cases h2 : (It002.footwear_kw.any (fun k => strIn k (It002.blobOf prod)) ||
    It002.searchEuNum (It002.blobOf prod)) = true <;>
  by_cases h3 : (It002.apparel_kw.any (fun k => strIn k (It002.blobOf prod)) ||
    strIn (strL ("talla")) (It002.blobOf prod)) = true <;>
  by_cases h4 : It002.elec_kw.any (fun k => strIn k (It002.blobOf prod)) <;>
  by_cases h5 : It002.food_kw.any (fun k => strIn k (It002.blobOf prod)) <;>
  by_cases h6 : It002.service_kw.any (fun k => strIn k (It002.blobOf prod)) <;>
  simp [List.find?, h1, h2, h3, h4, h5, h6]

/-! ## Emitted item = record ∪ enrichment (claim C10) -/

theorem dlookup_cons (e : Str × J) (l : List (Str × J)) (q : Str) :
    dlookup (e :: l) q = if e.1 = q then some e.2 else dlookup l q := by
  unfold dlookup
  by_cases h : e.1 = q
  · simp [List.find?, h]
  · simp [List.find?, h]

theorem dlookup_dupdate (k : Str) (v : J) (q : Str) (d : List (Str × J)) :
    dlookup (It007.dupdate d k v) q = if q = k then some v else dlookup d q := by
  induction d with
  | nil =>
    show dlookup [(k, v)] q = _
    rw [dlookup_cons]
    by_cases h : q = k
    · simp [h]
    · simp [h, Ne.symm h]
  | cons e rest ih =>
    show dlookup (if e.1 = k then (e.1, v) :: rest else e :: It007.dupdate rest k v) q = _
    by_cases hek : e.1 = k
    · rw [if_pos hek, dlookup_cons, dlookup_cons]
      by_cases hq : q = k
      · subst hq
        simp [hek]
      · have hne : e.1 ≠ q := by rw [hek]; exact fun hh => hq hh.symm
        simp [hne, hq]
    · rw [if_neg hek, dlookup_cons, ih, dlookup_cons]
      by_cases hq : q = k
      · subst hq
        have hne : e.1 ≠ q := hek
        simp [hne]
      · simp [hq]

theorem dlookup_mapped (product : Product) (q : Str) :
    dlookup (product.map (fun f => (f.1, J.jstr f.2))) q =
      (pget? product q).map J.jstr := by
  induction product with
  | nil => rfl
  | cons e rest ih =>
    show dlookup ((e.1, J.jstr e.2) :: rest.map _) q = _
    rw [dlookup_cons]
    unfold pget?
    by_cases h : e.1 = q
    · simp [List.find?, h]
    · simp [List.find?, h]
      simpa [pget?] using ih

/-- C10: each emitted item is the record updated with the enrichment
fields: any key that is not an enrichment key keeps its original record
value, while keys named like an enrichment key are overwritten with the
enrichment value. -/
theorem c10_out_item_fields (product : Product) (e : It007.Enr007) (meta : J)
    (k : Str) :
    (k ∉ It007.ENRICH_KEYS →
      dlookup (It007.out_item product e meta) k = (pget? product k).map J.jstr) ∧
    (k ∈ It007.ENRICH_KEYS →
      dlookup (It007.out_item product e meta) k =
        some (It007.enrichVal e meta k)) := by
  constructor
  · intro hk
    simp only [It007.ENRICH_KEYS, List.mem_cons, List.not_mem_nil, or_false,
      not_or] at hk
    obtain ⟨n1, n2, n3, n4, n5, n6, n7⟩ := hk
    unfold It007.out_item
    rw [dlookup_dupdate, if_neg n7, dlookup_dupdate, if_neg n6,
      dlookup_dupdate, if_neg n5, dlookup_dupdate, if_neg n4,
      dlookup_dupdate, if_neg n3, dlookup_dupdate, if_neg n2,
      dlookup_dupdate, if_neg n1, dlookup_mapped]
  · intro hk
    simp only [It007.ENRICH_KEYS, List.mem_cons, List.not_mem_nil, or_false] at hk
    unfold It007.out_item It007.enrichVal
    rcases hk with h | h | h | h | h | h | h <;> subst h
    · rw [dlookup_dupdate, if_neg (by decide), dlookup_dupdate, if_neg (by decide),
        dlookup_dupdate, if_neg (by decide), dlookup_dupdate, if_neg (by decide),
        dlookup_dupdate, if_neg (by decide), dlookup_dupdate, if_neg (by decide),
        dlookup_dupdate, if_pos rfl]
      rw [if_pos rfl]
    · rw [dlookup_dupdate, if_neg (by decide), dlookup_dupdate, if_neg (by decide),
        dlookup_dupdate, if_neg (by decide), dlookup_dupdate, if_neg (by decide),
        dlookup_dupdate, if_neg (by decide), dlookup_dupdate, if_pos rfl]
      rw [if_neg (by decide), if_pos rfl]
    · rw [dlookup_dupdate, if_neg (by decide), dlookup_dupdate, if_neg (by decide),
        dlookup_dupdate, if_neg (by decide), dlookup_dupdate, if_neg (by decide),
        dlookup_dupdate, if_pos rfl]
      rw [if_neg (by decide), if_neg (by decide), if_pos rfl]
    · rw [dlookup_dupdate, if_neg (by decide), dlookup_dupdate, if_neg (by decide),
        dlookup_dupdate, if_neg (by decide), dlookup_dupdate, if_pos rfl]
      rw [if_neg (by decide), if_neg (by decide), if_neg (by decide), if_pos rfl]
    · rw [dlookup_dupdate, if_neg (by decide), dlookup_dupdate, if_neg (by decide),
        dlookup_dupdate, if_pos rfl]
      rw [if_neg (by decide), if_neg (by decide), if_neg (by decide),
        if_neg (by decide), if_pos rfl]
    · rw [dlookup_dupdate, if_neg (by decide), dlookup_dupdate, if_pos rfl]
      rw [if_neg (by decide), if_neg (by decide), if_neg (by decide),
        if_neg (by decide), if_neg (by decide), if_pos rfl]
    · rw [dlookup_dupdate, if_pos rfl]
      rw [if_neg (by decide), if_neg (by decide), if_neg (by decide),
        if_neg (by decide), if_neg (by decide), if_neg (by decide)]

/-- C10 witness: a concrete record with a non-enrichment field
(`precio`, preserved verbatim) and a colliding field (`slug`,
silently overwritten). -/
theorem c10_out_item_fields_witness :
    dlookup
        (It007.out_item [(strL ("precio"), strL ("5")), (strL ("slug"), strL ("old"))]
          ⟨strL ("nuevo"), [], [], [], [], []⟩ (J.jobj []))
        (strL ("precio")) = some (J.jstr (strL ("5"))) ∧
    dlookup
        (It007.out_item [(strL ("precio"), strL ("5")), (strL ("slug"), strL ("old"))]
          ⟨strL ("nuevo"), [], [], [], [], []⟩ (J.jobj []))
        (strL ("slug")) = some (J.jstr (strL ("nuevo"))) := by
  constructor
  · have h := (c10_out_item_fields
      [(strL ("precio"), strL ("5")), (strL ("slug"), strL ("old"))]
      ⟨strL ("nuevo"), [], [], [], [], []⟩ (J.jobj []) (strL ("precio"))).1
      (by decide)
    rw [h]; rfl
  · have h := (c10_out_item_fields
      [(strL ("precio"), strL ("5")), (strL ("slug"), strL ("old"))]
      ⟨strL ("nuevo"), [], [], [], [], []⟩ (J.jobj []) (strL ("slug"))).2
      (by decide)
    rw [h]; rfl

/-! ## Fingerprint determinism (claim C7) -/

theorem leStr_total (a : Str) : ∀ b, leStr a b = true ∨ leStr b a = true := by
  induction a with
  | nil => intro b; left; rfl
  | cons x xs ih =>
    intro b
    cases b with
    | nil => right; rfl
    | cons y ys =>
      unfold leStr
      by_cases hxy : x = y
      · subst hxy
        simpa using ih ys
      · rcases lt_trichotomy x y with h | h | h
        · left; simp [hxy, h]
        · exact absurd h hxy
        · right; simp [Ne.symm hxy, h, asymm h]

theorem leStr_antisymm (a : Str) : ∀ b, leStr a b = true → leStr b a = true → a = b := by
  induction a with
  | nil =>
    intro b _ hba
    cases b with
    | nil => rfl
    | cons y ys => simp [leStr] at hba
  | cons x xs ih =>
    intro b hab hba
    cases b with
    | nil => simp [leStr] at hab
    | cons y ys =>
      unfold leStr at hab hba
      by_cases hxy : x = y
      · subst hxy
        simp only [if_pos rfl] at hab hba
        rw [ih ys hab hba]
      · rw [if_neg hxy] at hab
        rw [if_neg (Ne.symm hxy)] at hba
        simp only [decide_eq_true_eq] at hab hba
        exact absurd hab (asymm hba)

theorem leStr_trans (a : Str) : ∀ b c, leStr a b = true → leStr b c = true →
    leStr a c = true := by
  induction a with
  | nil => intro b c _ _; rfl
  | cons x xs ih =>
    intro b c hab hbc
    cases b with
    | nil => simp [leStr] at hab
    | cons y ys =>
      cases c with
      | nil => simp [leStr] at hbc
      | cons z zs =>
        unfold leStr at hab hbc ⊢
        by_cases hxy : x = y <;> by_cases hyz : y = z
        · subst hxy; subst hyz
          simp only [if_pos rfl] at hab hbc ⊢
          exact ih ys zs hab hbc
        · subst hxy
          rw [if_pos rfl] at hab
          rw [if_neg hyz] at hbc ⊢
          exact hbc
        · subst hyz
          rw [if_neg hxy] at hab ⊢
          exact hab
        · rw [if_neg hxy] at hab
          rw [if_neg hyz] at hbc
          simp only [decide_eq_true_eq] at hab hbc
          have hxz : x < z := lt_trans hab hbc
          rw [if_neg (ne_of_lt hxz)]
          simpa using hxz

theorem insertByKey_perm {α : Type} (key : α → Str) (e : α) :
    ∀ (l : List α), (insertByKey key e l).Perm (e :: l) := by
  intro l
  induction l with
  | nil => exact List.Perm.refl _
  | cons f fs ih =>
    unfold insertByKey
    by_cases h : leStr (key e) (key f)
    · rw [if_pos h]
    · rw [if_neg h]
      exact (ih.cons f).trans (List.Perm.swap e f fs)

theorem sortByKey_perm {α : Type} (key : α → Str) :
    ∀ (l : List α), (sortByKey key l).Perm l := by
  intro l
  induction l with
  | nil => exact List.Perm.refl _
  | cons e es ih =>
    exact (insertByKey_perm key e (sortByKey key es)).trans (ih.cons e)

theorem mem_insertByKey {α : Type} (key : α → Str) (e x : α) (l : List α) :
    x ∈ insertByKey key e l ↔ x = e ∨ x ∈ l := by
  constructor
  · intro hx
    have := (insertByKey_perm key e l).mem_iff.mp hx
    simpa using this
  · intro hx
    apply (insertByKey_perm key e l).mem_iff.mpr
    simpa using hx

theorem insertByKey_pairwise {α : Type} (key : α → Str) (e : α) :
    ∀ (l : List α),
      List.Pairwise (fun a b => leStr (key a) (key b) = true) l →
      List.Pairwise (fun a b => leStr (key a) (key b) = true)
        (insertByKey key e l) := by
  intro l
  induction l with
  | nil =>
    intro _
    unfold insertByKey
    exact List.pairwise_singleton _ _
  | cons f fs ih =>
    intro hp
    rw [List.pairwise_cons] at hp
    obtain ⟨hf, hfs⟩ := hp
    unfold insertByKey
    by_cases h : leStr (key e) (key f)
    · rw [if_pos h]
      rw [List.pairwise_cons]
      refine ⟨?_, List.pairwise_cons.mpr ⟨hf, hfs⟩⟩
      intro b hb
      rcases List.mem_cons.mp hb with rfl | hb
      · exact h
      · exact leStr_trans _ _ _ h (hf b hb)
    · rw [if_neg h]
      rw [List.pairwise_cons]
      constructor
      · intro b hb
        have hcase := (mem_insertByKey key _ b fs).mp hb
        rcases hcase with heb | hb2
        · subst heb
          rcases leStr_total (key _) (key f) with h1 | h1
          · exact absurd h1 h
          · exact h1
        · exact hf b hb2
      · exact ih hfs

theorem sortByKey_pairwise {α : Type} (key : α → Str) :
    ∀ (l : List α),
      List.Pairwise (fun a b => leStr (key a) (key b) = true) (sortByKey key l) := by
  intro l
  induction l with
  | nil => simp [sortByKey]
  | cons e es ih => exact insertByKey_pairwise key e _ ih

/-- Two key-sorted association lists that are permutations of each
other and have no duplicate keys are equal. -/
theorem sorted_perm_nodup_eq :
    ∀ (l1 l2 : List (Str × Str)),
      l1.Perm l2 →
      List.Pairwise (fun a b => leStr a.1 b.1 = true) l1 →
      List.Pairwise (fun a b => leStr a.1 b.1 = true) l2 →
      (l1.map Prod.fst).Nodup → l1 = l2 := by
  intro l1
  induction l1 with
  | nil => intro l2 hperm _ _ _; simpa using hperm.nil_eq
  | cons a t1 ih =>
    intro l2 hperm hs1 hs2 hnd
    cases l2 with
    | nil => exact absurd hperm.symm (by simp)
    | cons b t2 =>
      rw [List.pairwise_cons] at hs1 hs2
      obtain ⟨ha, ht1⟩ := hs1
      obtain ⟨hb, ht2⟩ := hs2
      simp only [List.map_cons, List.nodup_cons] at hnd
      obtain ⟨hka, hndt⟩ := hnd
      have hab : a = b := by
        have hain : a ∈ b :: t2 := hperm.mem_iff.mp (List.mem_cons_self a t1)
        have hbin : b ∈ a :: t1 := hperm.symm.mem_iff.mp (List.mem_cons_self b t2)
        rcases List.mem_cons.mp hain with h1 | h1
        · exact h1
        · rcases List.mem_cons.mp hbin with h2 | h2
          · exact h2.symm
          · -- a deeper in l2, b deeper in l1: keys must be equal, contradicting nodup
            have h3 : leStr b.1 a.1 = true := hb a h1
            have h4 : leStr a.1 b.1 = true := ha b h2
            have hk : a.1 = b.1 := leStr_antisymm _ _ h4 h3
            exact absurd (hk ▸ (List.mem_map_of_mem Prod.fst h2)) hka
      subst hab
      have htperm : t1.Perm t2 := hperm.cons_inv
      rw [ih t2 htperm ht1 ht2 hndt]

/-- C7: the fingerprint is deterministic and insensitive to field
insertion order — two cache-key objects holding the same key-value
pairs in any order (keys unique, as in a Python dict) hash
identically, because `json.dumps(..., sort_keys=True)` canonicalizes
the serialization before `sha1` is applied. -/
theorem c7_sha1_key_insertion_order (hash : Str → Str)
    (o1 o2 : List (Str × Str)) (hperm : o1.Perm o2)
    (hnd : (o1.map Prod.fst).Nodup) :
    sha1_key hash o1 = sha1_key hash o2 := by
  unfold sha1_key dumpsSorted
  have hsorted : sortByKey Prod.fst o1 = sortByKey Prod.fst o2 := by
    apply sorted_perm_nodup_eq
    · exact ((sortByKey_perm Prod.fst o1).trans hperm).trans
        (sortByKey_perm Prod.fst o2).symm
    · exact sortByKey_pairwise Prod.fst o1
    · exact sortByKey_pairwise Prod.fst o2
    · exact ((sortByKey_perm Prod.fst o1).map Prod.fst).nodup_iff.mpr hnd
  rw [hsorted]

/-- C7 witness: the same two fields inserted in either order produce
the same fingerprint. -/
theorem c7_sha1_key_insertion_order_witness :
    sha1_key id [(strL ("nombre"), strL ("x")), (strL ("marca"), strL ("y"))] =
      sha1_key id [(strL ("marca"), strL ("y")), (strL ("nombre"), strL ("x"))] := by
  apply c7_sha1_key_insertion_order
  · decide
  · decide

/-! ## Per-record failure degradation (claim C1) -/

/-- C1: when the generation adapter raises on every attempt (so the
repair call, which goes through the same adapter, yields nothing), the
record's result is exactly the Fallback Generator's output, the method
is `fallback`, and exactly one Error Ledger entry with stage `enrich`
is appended — one entry for the record, not one per retry. -/
theorem c1_enrich_step_adapter_down (gen : Nat → Except Str J)
    (repair : Str → Option J) (product : Product) (i : Nat) (ts : Str)
    (hgen : ∀ a, ∃ m, gen a = Except.error m)
    (hrep : ∀ s, repair s = none) :
    (It008.enrich_step gen repair product i ts).1 =
        It008.fallback_output product ∧
    (It008.enrich_step gen repair product i ts).2.1 = strL ("fallback") ∧
    (It008.enrich_step gen repair product i ts).2.2.length = 1 ∧
    ∀ er ∈ (It008.enrich_step gen repair product i ts).2.2,
      er.stage = strL ("enrich") := by
  obtain ⟨m0, hm0⟩ := hgen 0
  obtain ⟨m1, hm1⟩ := hgen 1
  have hloop : It008.enrich_loop gen repair product 0 2 [] [] = (none, m1) := by
    unfold It008.enrich_loop
    rw [hm0]
    simp only [ne_eq, not_true_eq_false, if_false, ite_self]
    unfold It008.enrich_loop
    rw [hm1]
    simp only [hrep, ite_self]
    rfl
  unfold It008.enrich_step
  rw [hloop]
  refine ⟨rfl, rfl, rfl, ?_⟩
  intro er her
  simp only [List.mem_singleton] at her
  subst her
  rfl

/-- C1 witness: a concrete record with an always-raising adapter. -/
theorem c1_enrich_step_adapter_down_witness :
    (It008.enrich_step (fun _ => Except.error (strL ("timeout")))
        (fun _ => none) [(strL ("nombre"), strL ("Soporte"))] 1 (strL ("t"))).1 =
      It008.fallback_output [(strL ("nombre"), strL ("Soporte"))] ∧
    (It008.enrich_step (fun _ => Except.error (strL ("timeout")))
        (fun _ => none) [(strL ("nombre"), strL ("Soporte"))] 1 (strL ("t"))).2.2.length = 1 := by
  have h := c1_enrich_step_adapter_down (fun _ => Except.error (strL ("timeout")))
    (fun _ => none) [(strL ("nombre"), strL ("Soporte"))] 1 (strL ("t"))
    (fun a => ⟨strL ("timeout"), rfl⟩) (fun s => rfl)
  exact ⟨h.1, h.2.2.1⟩

/-! ## Deterministic bullet synthesis (claim C8) -/

theorem isInit_trans {α : Type} {a b c : List α} (h1 : isInit a b)
    (h2 : isInit b c) : isInit a c := by
  obtain ⟨t1, rfl⟩ := h1
  obtain ⟨t2, rfl⟩ := h2
  exact ⟨t1 ++ t2, by simp⟩

theorem isInit_mem {α : Type} {a b : List α} {x : α} (h : isInit a b)
    (hx : x ∈ a) : x ∈ b := by
  obtain ⟨t, rfl⟩ := h
  exact List.mem_append_left t hx

theorem isInit_length {α : Type} {a b : List α} (h : isInit a b) :
    a.length ≤ b.length := by
  obtain ⟨t, rfl⟩ := h
  simp

theorem isInit_mem_take {α : Type} {a b : List α} {x : α} {n : Nat}
    (h : isInit a b) (hlen : a.length ≤ n) (hx : x ∈ a) : x ∈ b.take n := by
  obtain ⟨t, rfl⟩ := h
  rw [List.take_append_eq_append_take, List.take_of_length_le hlen]
  exact List.mem_append_left _ hx

theorem add_if_spec (t : Nat) (l : List Str) (c : Str) :
    It008.add_if t l c = l ∨
    (l.length < t ∧ It008.compact_whitespace c ≠ [] ∧
     (∀ x ∈ l, It008.norm_for_compare x ≠
        It008.norm_for_compare (It008.compact_whitespace c)) ∧
     It008.add_if t l c = l ++ [It008.compact_whitespace c]) := by
  unfold It008.add_if
  by_cases h1 : t ≤ l.length
  · left; rw [if_pos h1]
  · rw [if_neg h1]
    by_cases h2 : It008.compact_whitespace c = []
    · left; simp [h2]
    · rw [if_neg h2]
      by_cases h3 : l.any (fun x => It008.norm_for_compare x =
        It008.norm_for_compare (It008.compact_whitespace c))
      · left; rw [if_pos h3]
      · right
        refine ⟨by omega, h2, ?_, by rw [if_neg h3]⟩
        intro x hx
        have hall : ∀ y ∈ l, ¬It008.norm_for_compare y =
            It008.norm_for_compare (It008.compact_whitespace c) := by
          simpa using h3
        exact hall x hx

theorem add_if_isInit (t : Nat) (l : List Str) (c : Str) :
    isInit l (It008.add_if t l c) := by
  rcases add_if_spec t l c with h | ⟨_, _, _, h⟩
  · rw [h]; exact ⟨[], by simp⟩
  · rw [h]; exact ⟨_, rfl⟩

theorem foldl_add_if_isInit (t : Nat) :
    ∀ (cs : List Str) (l : List Str),
      isInit l (cs.foldl (It008.add_if t) l) := by
  intro cs
  induction cs with
  | nil => intro l; exact ⟨[], by simp⟩
  | cons c cs ih =>
    intro l
    exact isInit_trans (add_if_isInit t l c) (ih (It008.add_if t l c))

theorem foldl_add_if_mem (t : Nat) :
    ∀ (cs : List Str) (l : List Str) (b : Str),
      b ∈ cs.foldl (It008.add_if t) l →
      b ∈ l ∨ ∃ c ∈ cs, b = It008.compact_whitespace c := by
  intro cs
  induction cs with
  | nil => intro l b hb; left; simpa using hb
  | cons c cs ih =>
    intro l b hb
    rcases ih (It008.add_if t l c) b hb with h | ⟨c', hc', rfl⟩
    · rcases add_if_spec t l c with heq | ⟨_, _, _, heq⟩
      · rw [heq] at h; left; exact h
      · rw [heq] at h
        rcases List.mem_append.mp h with h | h
        · left; exact h
        · right
          exact ⟨c, List.mem_cons_self _ _, List.mem_singleton.mp h⟩
    · right
      exact ⟨c', List.mem_cons_of_mem _ hc', rfl⟩

theorem foldl_add_if_attempted (t : Nat) :
    ∀ (cs : List Str) (l : List Str) (c : Str),
      c ∈ cs →
      (cs.foldl (It008.add_if t) l).length < t →
      It008.compact_whitespace c ≠ [] →
      ∃ b ∈ cs.foldl (It008.add_if t) l,
        It008.norm_for_compare b =
          It008.norm_for_compare (It008.compact_whitespace c) := by
  intro cs
  induction cs with
  | nil => intro l c hc; exact absurd hc (List.not_mem_nil c)
  | cons c0 cs ih =>
    intro l c hc hlen hcc
    have hstep : (c0 :: cs).foldl (It008.add_if t) l =
        cs.foldl (It008.add_if t) (It008.add_if t l c0) := rfl
    rcases List.mem_cons.mp hc with rfl | hc
    · -- the candidate is attempted right now
      have hinit : isInit (It008.add_if t l c) (cs.foldl (It008.add_if t) (It008.add_if t l c)) :=
        foldl_add_if_isInit t cs _
      have hll : l.length < t := by
        have h1 : l.length ≤ (It008.add_if t l c).length :=
          isInit_length (add_if_isInit t l c)
        have h2 := isInit_length hinit
        rw [hstep] at hlen
        omega
      rcases add_if_spec t l c with heq | ⟨_, _, _, heq⟩
      · -- not appended: with room and a non-blank text, the only
        -- reason is that an existing bullet has the same normalized form
        by_cases h3 : l.any (fun x => It008.norm_for_compare x =
          It008.norm_for_compare (It008.compact_whitespace c))
        · obtain ⟨x, hx, hxn⟩ := List.any_eq_true.mp h3
          refine ⟨x, ?_, by simpa using hxn⟩
          rw [hstep]
          exact isInit_mem hinit (isInit_mem (add_if_isInit t l c) hx)
        · exfalso
          have heq2 : It008.add_if t l c = l ++ [It008.compact_whitespace c] := by
            unfold It008.add_if
            rw [if_neg (by omega), if_neg hcc, if_neg h3]
          rw [heq] at heq2
          have := congrArg List.length heq2
          simp at this
      · refine ⟨It008.compact_whitespace c, ?_, rfl⟩
        rw [hstep]
        exact isInit_mem hinit (by rw [heq]; simp)
    · have := ih (It008.add_if t l c0) c hc (by rw [hstep] at hlen; exact hlen) hcc
      rw [hstep]
      exact this

theorem dropWhile_append_last (p : Char → Bool) (a : Char) (h : p a = false) :
    ∀ (xs : Str), ∃ u, List.dropWhile p (xs ++ [a]) = u ++ [a] := by
  intro xs
  induction xs with
  | nil => exact ⟨[], by simp [List.dropWhile_cons, h]⟩
  | cons x xs ih =>
    by_cases hx : p x
    · simpa [List.dropWhile_cons, hx] using ih
    · exact ⟨x :: xs, by simp [List.dropWhile_cons, hx]⟩

theorem pyStrip_cons_head (c0 : Char) (s : Str) (h : c0.isWhitespace = false) :
    ∃ t, pyStrip (c0 :: s) = c0 :: t := by
  unfold pyStrip
  rw [List.dropWhile_cons, if_neg (by simp [h])]
  rw [List.reverse_cons]
  obtain ⟨u, hu⟩ := dropWhile_append_last Char.isWhitespace c0 h s.reverse
  rw [hu, List.reverse_append]
  exact ⟨u.reverse, by simp⟩

theorem replaceRuns_cons_head (p : Char → Bool) (r c0 : Char) (s : Str)
    (h : p c0 = false) :
    replaceRuns p r (c0 :: s) false = c0 :: replaceRuns p r s false := by
  cases s with
  | nil => simp [replaceRuns, h]
  | cons c2 rest => simp [replaceRuns, h]

theorem compact_cons_head (c0 : Char) (s : Str) (h : c0.isWhitespace = false) :
    (It008.compact_whitespace (c0 :: s)).head? = some c0 := by
  unfold It008.compact_whitespace
  obtain ⟨t, ht⟩ := pyStrip_cons_head c0 s h
  rw [ht, replaceRuns_cons_head _ _ _ _ h]
  rfl

theorem mem_ite_singleton {g : Prop} [Decidable g] {x c : Str}
    (h : c ∈ (if g then [x] else ([] : List Str))) : c = x := by
  by_cases hg : g
  · rw [if_pos hg] at h; exact List.mem_singleton.mp h
  · rw [if_neg hg] at h; simp at h

set_option maxHeartbeats 1000000 in
/-- Every field-derived candidate starts with its label's first letter,
never `L` — so the filler phrase `Listo para usar` cannot arise from a
field-derived attempt. -/
theorem field_candidates_head (product : Product) :
    ∀ c ∈ It008.field_candidates product,
      (It008.compact_whitespace c).head? ≠ some 'L' := by
  intro c hc
  unfold It008.field_candidates at hc
  simp only [List.mem_append] at hc
  rcases hc with ((((((h | h) | h) | h) | h) | h) | h)
  · rw [mem_ite_singleton h]; decide
  · rw [mem_ite_singleton h]
    have hh : (It008.compact_whitespace
        ('M' :: (strL ("aterial: ") ++ pyStrip (pget product (strL ("material")))))).head? =
        some 'M' := compact_cons_head 'M' _ (by decide)
    rw [show strL ("Material: ") ++ pyStrip (pget product (strL ("material"))) =
      'M' :: (strL ("aterial: ") ++ pyStrip (pget product (strL ("material")))) from rfl]
    rw [hh]; decide
  · rw [mem_ite_singleton h]
    have hh : (It008.compact_whitespace
        ('C' :: (strL ("ategoría: ") ++ pyStrip (pget product (strL ("categoria")))))).head? =
        some 'C' := compact_cons_head 'C' _ (by decide)
    rw [show strL ("Categoría: ") ++ pyStrip (pget product (strL ("categoria"))) =
      'C' :: (strL ("ategoría: ") ++ pyStrip (pget product (strL ("categoria")))) from rfl]
    rw [hh]; decide
  · rw [mem_ite_singleton h]
    have hh : (It008.compact_whitespace
        ('A' :: (strL ("utonomía: ") ++ (pget product (strL ("bateria_horas")) ++ strL (" h"))))).head? =
        some 'A' := compact_cons_head 'A' _ (by decide)
    rw [show strL ("Autonomía: ") ++ pget product (strL ("bateria_horas")) ++ strL (" h") =
      'A' :: (strL ("utonomía: ") ++ (pget product (strL ("bateria_horas")) ++ strL (" h"))) from rfl]
    rw [hh]; decide
  · rw [mem_ite_singleton h]
    have hh : (It008.compact_whitespace
        ('C' :: (strL ("apacidad: ") ++ (pget product (strL ("capacidad_mah")) ++ strL (" mAh"))))).head? =
        some 'C' := compact_cons_head 'C' _ (by decide)
    rw [show strL ("Capacidad: ") ++ pget product (strL ("capacidad_mah")) ++ strL (" mAh") =
      'C' :: (strL ("apacidad: ") ++ (pget product (strL ("capacidad_mah")) ++ strL (" mAh"))) from rfl]
    rw [hh]; decide
  · rw [mem_ite_singleton h]
    have hh : (It008.compact_whitespace
        ('C' :: (strL ("onectividad: ") ++ pget product (strL ("conectividad"))))).head? =
        some 'C' := compact_cons_head 'C' _ (by decide)
    rw [show strL ("Conectividad: ") ++ pget product (strL ("conectividad")) =
      'C' :: (strL ("onectividad: ") ++ pget product (strL ("conectividad"))) from rfl]
    rw [hh]; decide
  · rw [mem_ite_singleton h]
    have hh : (It008.compact_whitespace
        ('C' :: (strL ("onexión: ") ++ pget product (strL ("conexion"))))).head? =
        some 'C' := compact_cons_head 'C' _ (by decide)
    rw [show strL ("Conexión: ") ++ pget product (strL ("conexion")) =
      'C' :: (strL ("onexión: ") ++ pget product (strL ("conexion"))) from rfl]
    rw [hh]; decide

set_option maxHeartbeats 2000000 in
/-- C8: every bullet of `fill_bullets_from_fields` comes from the
caller's list or from one of the guarded candidates (field-labelled
values of fields actually present in the record, the 3D signal phrase,
or the two fixed fillers); and whenever the generic filler
`Listo para usar` was appended, every available field-derived candidate
had already been incorporated (up to normalized-form duplication) — the
fillers really are a last resort. -/
theorem c8_fill_bullets_provenance (product : Product) (current : List Str) :
    (∀ b ∈ It008.fill_bullets_from_fields product current 3,
        b ∈ current ∨
        ∃ c ∈ It008.candidate_texts product,
          b = It008.compact_whitespace c) ∧
    (strL ("Listo para usar") ∈ It008.fill_bullets_from_fields product current 3 →
     strL ("Listo para usar") ∉ current →
     ∀ c ∈ It008.field_candidates product,
       It008.compact_whitespace c = [] ∨
       ∃ b ∈ It008.fill_bullets_from_fields product current 3,
         It008.norm_for_compare b =
           It008.norm_for_compare (It008.compact_whitespace c)) := by
  have hfill : It008.fill_bullets_from_fields product current 3 =
      ((It008.candidate_texts product).foldl (It008.add_if 3) current).take 3 := rfl
  have hdecomp : (It008.candidate_texts product).foldl (It008.add_if 3) current =
      It008.add_if 3
        (It008.add_if 3
          ((It008.field_candidates product).foldl (It008.add_if 3) current)
          (strL ("Listo para usar")))
        (strL ("Diseño funcional")) := by
    unfold It008.candidate_texts
    rw [List.foldl_append]
    simp only [List.foldl_cons, List.foldl_nil]
  constructor
  · intro b hb
    rw [hfill] at hb
    exact foldl_add_if_mem 3 (It008.candidate_texts product) current b
      (List.take_subset _ _ hb)
  · intro hL hLcur c hcfield
    rw [hfill] at hL
    have hLfinal := List.take_subset _ _ hL
    rw [hdecomp] at hLfinal
    have hLX : strL ("Listo para usar") ∈
        It008.add_if 3
          ((It008.field_candidates product).foldl (It008.add_if 3) current)
          (strL ("Listo para usar")) := by
      rcases add_if_spec 3 _ (strL ("Diseño funcional")) with heq | ⟨_, _, _, heq⟩
      · rw [heq] at hLfinal; exact hLfinal
      · rw [heq] at hLfinal
        rcases List.mem_append.mp hLfinal with h | h
        · exact h
        · exact absurd (List.mem_singleton.mp h) (by decide)
    have hLnotmid : strL ("Listo para usar") ∉
        (It008.field_candidates product).foldl (It008.add_if 3) current := by
      intro hmem
      rcases foldl_add_if_mem 3 (It008.field_candidates product) current _ hmem with
        h | ⟨c', hc', heq⟩
      · exact hLcur h
      · apply field_candidates_head product c' hc'
        rw [← heq]
        rfl
    have hmidlen : ((It008.field_candidates product).foldl (It008.add_if 3) current).length < 3 := by
      rcases add_if_spec 3 ((It008.field_candidates product).foldl (It008.add_if 3) current)
        (strL ("Listo para usar")) with heq | ⟨hlen, _, _, _⟩
      · rw [heq] at hLX; exact absurd hLX hLnotmid
      · exact hlen
    by_cases hcc : It008.compact_whitespace c = []
    · left; exact hcc
    · right
      obtain ⟨b, hb, hbn⟩ := foldl_add_if_attempted 3 (It008.field_candidates product)
        current c hcfield hmidlen hcc
      refine ⟨b, ?_, hbn⟩
      rw [hfill, hdecomp]
      exact isInit_mem_take
        (isInit_trans (add_if_isInit 3 _ (strL ("Listo para usar")))
          (add_if_isInit 3 _ (strL ("Diseño funcional"))))
        (by omega) hb

set_option maxHeartbeats 1000000 in
/-- C8 witness: for a record with `material = PLA` the filler was
appended last and the material-derived bullet is present. -/
theorem c8_fill_bullets_provenance_witness :
    It008.compact_whitespace (strL ("Material: ") ++
        pyStrip (pget [(strL ("material"), strL ("PLA"))] (strL ("material")))) = [] ∨
    ∃ b ∈ It008.fill_bullets_from_fields [(strL ("material"), strL ("PLA"))] [] 3,
      It008.norm_for_compare b =
        It008.norm_for_compare (It008.compact_whitespace (strL ("Material: ") ++
          pyStrip (pget [(strL ("material"), strL ("PLA"))] (strL ("material"))))) :=
  (c8_fill_bullets_provenance [(strL ("material"), strL ("PLA"))] []).2
    (by decide) (by decide) _ (by decide)

/-! ## Cache hit semantics (claim C3) -/

/-- The domain-choice step never performs an enrichment-generation
call: its only possible adapter call is the classification one. -/
theorem choose_domain_no_enrich_call (cfg : It002.Config002)
    (classifyO : Except Str (List (Str × J))) (prod : Product) (i : Nat)
    (ts : Str) :
    Call.enrich ∉ (It002.choose_domain cfg classifyO prod i ts).2.2 := by
  unfold It002.choose_domain
  repeat' split
  all_goals
    try rw [apply_ite (fun p : It002.DomainChoice × List ErrEntry × List Call => p.2.2)]
  all_goals try split
  all_goals simp

/-- C3 (amended): on a cache lookup hit under the active fingerprint,
the enrichment generation/fallback step is skipped — no
enrichment-generation call is made, the cached result is returned
verbatim, and the cache is unchanged.  (The classifier, however, runs
before the lookup; see the counterexample.) -/
theorem c3_process_record_hit (cfg : It002.Config002) (hash : Str → Str)
    (classifyO : Except Str (List (Str × J)))
    (enrichO : Except Str (List (Str × J)))
    (cache : List (Str × J)) (prod : Product) (i : Nat) (ts : Str)
    (fs : List (Str × J))
    (hhit : dlookup cache
      (It002.cache_key hash
        (It002.choose_domain cfg classifyO prod i ts).1.domain prod) =
      some (J.jobj fs)) :
    (It002.process_record cfg hash classifyO enrichO cache prod i ts).enriched =
      dgetD fs (strL ("enriched")) (J.jobj []) ∧
    Call.enrich ∉
      (It002.process_record cfg hash classifyO enrichO cache prod i ts).calls ∧
    (It002.process_record cfg hash classifyO enrichO cache prod i ts).cache =
      cache := by
  refine ⟨?_, ?_, ?_⟩
  · unfold It002.process_record
    simp [hhit]
  · unfold It002.process_record
    simp only [hhit]
    exact choose_domain_no_enrich_call cfg classifyO prod i ts
  · unfold It002.process_record
    simp [hhit]

set_option maxHeartbeats 4000000 in
/-- C3 counterexample: a record whose heuristic confidence (0.40,
generic) is below the 0.70 threshold triggers a generation-assisted
classification call *before* the cache lookup.  The record is in the
cache under its active fingerprint and the cached result is returned
verbatim — yet an adapter call was made for that record, so "the
classifier and generation steps are skipped entirely; no call is made
to the Generation Client Adapter" is false as stated. -/
theorem c3_counterexample :
    (dlookup
        [(It002.cache_key id (strL ("generic")) [(strL ("nombre"), strL ("x"))],
          J.jobj [(strL ("domain_info"), J.jobj []),
                  (strL ("enriched"), J.jstr (strL ("cached")))])]
        (It002.cache_key id
          (It002.choose_domain It002.config002 (Except.ok [])
            [(strL ("nombre"), strL ("x"))] 1 []).1.domain
          [(strL ("nombre"), strL ("x"))])).isSome = true ∧
    (It002.process_record It002.config002 id (Except.ok []) (Except.ok [])
        [(It002.cache_key id (strL ("generic")) [(strL ("nombre"), strL ("x"))],
          J.jobj [(strL ("domain_info"), J.jobj []),
                  (strL ("enriched"), J.jstr (strL ("cached")))])]
        [(strL ("nombre"), strL ("x"))] 1 []).enriched =
      J.jstr (strL ("cached")) ∧
    (It002.process_record It002.config002 id (Except.ok []) (Except.ok [])
        [(It002.cache_key id (strL ("generic")) [(strL ("nombre"), strL ("x"))],
          J.jobj [(strL ("domain_info"), J.jobj []),
                  (strL ("enriched"), J.jstr (strL ("cached")))])]
        [(strL ("nombre"), strL ("x"))] 1 []).calls = [Call.classify] := by
  refine ⟨rfl, rfl, rfl⟩

set_option maxHeartbeats 4000000 in
/-- C3 witness: a concrete cached record through the amended theorem. -/
theorem c3_process_record_hit_witness :
    Call.enrich ∉
      (It002.process_record It002.config002 id (Except.ok []) (Except.ok [])
        [(It002.cache_key id (strL ("generic")) [(strL ("nombre"), strL ("y"))],
          J.jobj [(strL ("enriched"), J.jstr (strL ("v")))])]
        [(strL ("nombre"), strL ("y"))] 2 []).calls :=
  (c3_process_record_hit It002.config002 id (Except.ok []) (Except.ok [])
    [(It002.cache_key id (strL ("generic")) [(strL ("nombre"), strL ("y"))],
      J.jobj [(strL ("enriched"), J.jstr (strL ("v")))])]
    [(strL ("nombre"), strL ("y"))] 2 []
    [(strL ("enriched"), J.jstr (strL ("v")))] (by rfl)).2.1
